import Mathlib

/-!
Verification of the MintEDGE DAG-replay simulator.

Shallow embedding of the repository's core modules:
* `mintedge/dag/models.py`    — data records and per-record computations;
* `mintedge/dag/topology.py`  — undirected weighted graph, shortest paths,
  multi-hop transfer times (`nx.dijkstra_path` is external library code and is
  modelled by its contract: a minimum-weight path under the stored weights);
* `mintedge/dag/scheduler.py` — the SimPy replay engine, modelled as a
  fuel-indexed evaluator computing each scheduled task's final recorded
  timing fields (the discrete-event semantics is deterministic: a task
  resumes exactly when the last of its predecessors' completion events
  fires, so the recorded values satisfy a recursion on predecessors);
* `mintedge/dag/loaders.py`   — `load_dag`'s construction of the
  successor/predecessor structure (JSON decoding itself is out of scope;
  the already-decoded dictionaries are the function's inputs).

Python floats are modelled as rationals (`ℚ`); a raised `ValueError` is
modelled as `Option.none` / a dedicated error constructor.
-/

namespace MintEdge

/-! ## Data model (`models.py`) -/

/-- `TaskDefinition` from `models.py`: a task of the DAG. -/
structure TaskDefinition where
  task_id : String
  compute_cost : ℚ
  successors : List String
  predecessors : List String
  /-- `edge_weights`: data size owed to each successor (a Python dict,
  embedded as an association list with distinct keys). -/
  edge_weights : List (String × ℚ)
deriving DecidableEq, Repr

/-- `ScheduledTask` from `models.py`.  The mutable `actual_*` fields that the
replay fills in are not stored here; they are produced by the evaluator
(`DAGScheduler.outcome`) below. -/
structure ScheduledTask where
  task_id : String
  node_id : String
  scheduled_start : ℚ
  scheduled_end : ℚ
  scheduled_duration : ℚ
deriving DecidableEq, Repr

/-- `ComputeNode` from `models.py`. -/
structure ComputeNode where
  node_id : String
  speed_multiplier : ℚ
  node_type : String
deriving DecidableEq, Repr

/-- `NetworkLink` from `models.py`. -/
structure NetworkLink where
  source : String
  target : String
  bandwidth : ℚ
  link_type : String
deriving DecidableEq, Repr

/-- `TaskDefinition.get_data_to_successor`: `edge_weights.get(successor_id, 0.0)`. -/
def TaskDefinition.get_data_to_successor (td : TaskDefinition) (successor_id : String) : ℚ :=
  match td.edge_weights.find? (fun kv => kv.1 == successor_id) with
  | some kv => kv.2
  | none => 0

/-- `ComputeNode.get_capacity`: `base_speed * speed_multiplier`. -/
def ComputeNode.get_capacity (n : ComputeNode) (base_speed : ℚ) : ℚ :=
  base_speed * n.speed_multiplier

/-- `ComputeNode.get_compute_time`: `compute_cost / capacity`, raising
(`none`) when the capacity is not positive. -/
def ComputeNode.get_compute_time (n : ComputeNode) (compute_cost base_speed : ℚ) : Option ℚ :=
  let capacity := n.get_capacity base_speed
  if capacity ≤ 0 then none
  else some (compute_cost / capacity)

/-- `NetworkLink.get_transfer_time`: raises (`none`) when `bandwidth ≤ 0`,
otherwise `data_size_bytes / (bandwidth * 1e6 / 8)` — the code treats the
`bandwidth` field as Mbps and converts it to bytes per time unit. -/
def NetworkLink.get_transfer_time (l : NetworkLink) (data_size_bytes : ℚ) : Option ℚ :=
  if l.bandwidth ≤ 0 then none
  else some (data_size_bytes / (l.bandwidth * 1000000 / 8))

/-! ## Extended edge weights

`_build_graph` stores `1.0 / bandwidth if bandwidth > 0 else float("inf")`
as the Dijkstra weight of an edge.  `EWeight` models a float that is either
finite or `inf`. -/

/-- A finite rational weight or positive infinity (`float("inf")`). -/
inductive EWeight where
  | fin (q : ℚ)
  | inf
deriving DecidableEq, Repr

/-- Addition of extended weights (`inf` absorbs). -/
def EWeight.add : EWeight → EWeight → EWeight
  | .fin a, .fin b => .fin (a + b)
  | _, _ => .inf

/-- Strict comparison of extended weights (`inf < inf` is false, as for floats). -/
def EWeight.ltB : EWeight → EWeight → Bool
  | .fin a, .fin b => decide (a < b)
  | .fin _, .inf => true
  | .inf, _ => false

/-- Non-strict comparison of extended weights. -/
def EWeight.leB : EWeight → EWeight → Bool
  | .fin a, .fin b => decide (a ≤ b)
  | .inf, .fin _ => false
  | _, .inf => true

/-! ## Topology (`topology.py`)

`DAGTopology._build_graph` iterates over `links`: a self-loop is stored only
in the directed-pair link map `_link_map`; every other link is added as an
undirected graph edge (weight `1/bandwidth`, or `inf` when `bandwidth ≤ 0`)
and stored in `_link_map` under both orderings of its endpoints.  Python
dict insertion overwrites, so a later link for the same pair shadows an
earlier one; `nx.Graph.add_edge` likewise overwrites the edge attributes. -/

/-- `DAGTopology`'s construction inputs: the compute nodes (a dict keyed by
`node_id`, embedded as a list with distinct ids) and the links. -/
structure DAGTopology where
  nodes : List ComputeNode
  links : List NetworkLink
deriving DecidableEq, Repr

/-- One `_build_graph` iteration's effect on `_link_map`: a self-loop is
stored under its own directed pair; any other link under both orderings of
its endpoints.  New entries are prepended so that first-match lookup has
Python-dict overwrite semantics. -/
def linkMapStep (m : List ((String × String) × NetworkLink)) (l : NetworkLink) :
    List ((String × String) × NetworkLink) :=
  if l.source == l.target then ((l.source, l.target), l) :: m
  else ((l.target, l.source), l) :: ((l.source, l.target), l) :: m

/-- The entries inserted into `_link_map` by `_build_graph`. -/
def linkMapEntries (links : List NetworkLink) : List ((String × String) × NetworkLink) :=
  links.foldl linkMapStep []

/-- First-match association lookup (Python dict `get` on `_link_map`). -/
def assocFind : List ((String × String) × NetworkLink) → String × String → Option NetworkLink
  | [], _ => none
  | (k, v) :: rest, key => if k = key then some v else assocFind rest key

/-- `DAGTopology.get_link` / `self._link_map.get((source, target))`. -/
def DAGTopology.get_link (t : DAGTopology) (source target : String) : Option NetworkLink :=
  assocFind (linkMapEntries t.links) (source, target)

/-- The non-self-loop links: exactly those added as graph edges. -/
def DAGTopology.graphEdgeLinks (t : DAGTopology) : List NetworkLink :=
  t.links.filter (fun l => !(l.source == l.target))

/-- The graph edge between `a` and `b` (either orientation), if any; the last
matching link wins, mirroring `nx.Graph.add_edge`'s attribute overwrite. -/
def DAGTopology.graphEdge (t : DAGTopology) (a b : String) : Option NetworkLink :=
  (t.graphEdgeLinks.filter
    (fun l => (l.source == a && l.target == b) || (l.source == b && l.target == a))).getLast?

/-- The graph's vertex set: every compute node plus every endpoint of an
added edge (`nx.Graph.add_edge` inserts missing endpoints as vertices). -/
def DAGTopology.graphNodes (t : DAGTopology) : List String :=
  t.nodes.map (fun n => n.node_id) ++
    t.graphEdgeLinks.foldr (fun l acc => l.source :: l.target :: acc) []

/-- The Dijkstra weight stored on the edge between `a` and `b`:
`1.0 / bandwidth if bandwidth > 0 else float("inf")` (and `inf` when there
is no edge at all — such a pair is never traversed). -/
def DAGTopology.edgeWeight (t : DAGTopology) (a b : String) : EWeight :=
  match t.graphEdge a b with
  | some l => if 0 < l.bandwidth then .fin (1 / l.bandwidth) else .inf
  | none => .inf

/-- Total Dijkstra weight of a vertex sequence. -/
def DAGTopology.pathWeight (t : DAGTopology) : List String → EWeight
  | a :: b :: rest => (t.edgeWeight a b).add (t.pathWeight (b :: rest))
  | _ => .fin 0

/-- All simple paths from `current` to `target` that avoid `visited`,
extending along graph edges, with at most `fuel` further hops.  Used to
model `nx.dijkstra_path` by its contract (a minimum-weight path). -/
def DAGTopology.pathsFrom (t : DAGTopology) : Nat → List String → String → String → List (List String)
  | 0, _, current, target => if current == target then [[current]] else []
  | fuel + 1, visited, current, target =>
    if current == target then [[current]]
    else
      (t.graphNodes.filter
          (fun n => (t.graphEdge current n).isSome && !(visited.contains n))).foldr
        (fun n acc =>
          ((t.pathsFrom fuel (current :: visited) n target).map (fun p => current :: p)) ++ acc)
        []

/-- Select a path of minimal `pathWeight` from a list of candidates (the tie
break is irrelevant: `nx.dijkstra_path` returns some minimum-weight path). -/
def chooseMinPath (w : List String → EWeight) : List (List String) → Option (List String)
  | [] => none
  | p :: ps =>
    match chooseMinPath w ps with
    | none => some p
    | some q => if EWeight.ltB (w q) (w p) then some q else some p

/-- `DAGTopology.get_path`: trivial path when `source == target`, otherwise a
minimum-weight path over the inverse-bandwidth weights; `none` models the
`ValueError` raised for `nx.NetworkXNoPath` / `nx.NodeNotFound` (a source
absent from the graph has no adjacent edge, hence also no candidate path). -/
def DAGTopology.get_path (t : DAGTopology) (source target : String) : Option (List String) :=
  if source == target then some [source]
  else chooseMinPath t.pathWeight (t.pathsFrom t.graphNodes.length [] source target)

/-- Consecutive-pair link collection of `get_path_links`: walks the path and
appends the `_link_map` entry of each consecutive pair, silently skipping a
missing pair (`if link: links.append(link)`). -/
def DAGTopology.consecLinks (t : DAGTopology) : List String → List NetworkLink
  | a :: b :: rest =>
    (match t.get_link a b with
     | some l => l :: t.consecLinks (b :: rest)
     | none => t.consecLinks (b :: rest))
  | _ => []

/-- `DAGTopology.get_path_links`. -/
def DAGTopology.get_path_links (t : DAGTopology) (source target : String) :
    Option (List NetworkLink) :=
  if source == target then
    match t.get_link source target with
    | some l => some [l]
    | none => some []
  else (t.get_path source target).map t.consecLinks

/-- Evaluate `f` on every element, failing if any evaluation fails
(a raising generator inside Python's `sum(...)` / list building). -/
def optMap (f : α → Option β) : List α → Option (List β)
  | [] => some []
  | x :: xs =>
    match f x, optMap f xs with
    | some y, some ys => some (y :: ys)
    | _, _ => none

/-- `DAGTopology.get_transfer_time`: self-loop (or zero) time on the same
node, otherwise the sum of each path link's own transfer time; `none` models
the `ValueError`s (no path, no path links, non-positive bandwidth). -/
def DAGTopology.get_transfer_time (t : DAGTopology) (source target : String)
    (data_size_bytes : ℚ) : Option ℚ :=
  if source == target then
    match t.get_link source target with
    | some l => l.get_transfer_time data_size_bytes
    | none => some 0
  else
    match t.get_path_links source target with
    | none => none
    | some ls =>
      if ls = [] then none
      else (optMap (fun l => l.get_transfer_time data_size_bytes) ls).map List.sum

/-- `DAGTopology.get_compute_time`: raises (`none`) on an unknown node id. -/
def DAGTopology.get_compute_time (t : DAGTopology) (node_id : String)
    (compute_cost base_speed : ℚ) : Option ℚ :=
  match t.nodes.find? (fun n => n.node_id == node_id) with
  | none => none
  | some n => n.get_compute_time compute_cost base_speed

/-! ## Scheduler (`scheduler.py`)

`DAGScheduler._execute_task` is a SimPy process per scheduled task.  The
discrete-event semantics is deterministic: all processes start at simulated
time 0, a waiting process resumes at the instant the last of its
predecessors' completion events fires, and the recorded fields therefore
satisfy a recursion on the resolved predecessor ids.  `DAGScheduler.outcome`
below evaluates that recursion with a fuel bound; an exhausted fuel (a
dependency cycle) yields `blocked`, matching a process that is suspended
forever — `simpy.Environment.run()` still returns once the event queue is
empty, leaving the blocked task's `actual_end` unset. -/

/-- `str.rsplit("_", 1)`: split a character list at its last underscore,
`none` when it has no underscore. -/
def splitLastUnderscore : List Char → Option (List Char × List Char)
  | [] => none
  | c :: cs =>
    match splitLastUnderscore cs with
    | some (l, r) => some (c :: l, r)
    | none => if c = '_' then some ([], cs) else none

/-- `DAGScheduler._get_base_task_id` (pure: the `_task_id_map` cache is an
observationally transparent memo).  `"T0_c6" -> "T0"`; an id whose final
segment does not start with `"c"` is already a base id. -/
def get_base_task_id (scheduled_task_id : String) : String :=
  match splitLastUnderscore scheduled_task_id.toList with
  | some (l, r) => if r.head? = some 'c' then String.mk l else scheduled_task_id
  | none => scheduled_task_id

/-- The cell suffix extracted by `_get_predecessors`:
`parts[1] if len(parts) == 2 and parts[1].startswith("c") else None`. -/
def cellSuffixOf (scheduled_task_id : String) : Option String :=
  match splitLastUnderscore scheduled_task_id.toList with
  | some (_, r) => if r.head? = some 'c' then some (String.mk r) else none
  | none => none

/-- `DAGScheduler`'s construction inputs (the SimPy environment, metrics sink
and mutable caches carry no replay-relevant state of their own). -/
structure DAGScheduler where
  topology : DAGTopology
  task_definitions : List TaskDefinition
  scheduled_tasks : List ScheduledTask
  base_compute_speed : ℚ
deriving DecidableEq, Repr

/-- `self.scheduled_tasks.get(task_id)` (dict keyed by `task_id`). -/
def DAGScheduler.findTask (S : DAGScheduler) (tid : String) : Option ScheduledTask :=
  S.scheduled_tasks.find? (fun st => st.task_id == tid)

/-- `self.task_definitions.get(task_id)` (dict keyed by `task_id`). -/
def DAGScheduler.findDef (S : DAGScheduler) (tid : String) : Option TaskDefinition :=
  S.task_definitions.find? (fun td => td.task_id == tid)

/-- `DAGScheduler._get_predecessors`: map each base predecessor to the
scheduled id with the same cell suffix (or the bare base id), dropping any
mapped id that is not in the schedule. -/
def DAGScheduler.get_predecessors (S : DAGScheduler) (scheduled_task_id : String) : List String :=
  match S.findDef (get_base_task_id scheduled_task_id) with
  | none => []
  | some task_def =>
    match cellSuffixOf scheduled_task_id with
    | some suffix =>
      task_def.predecessors.filterMap (fun pred_base_id =>
        let pred_scheduled_id := pred_base_id ++ "_" ++ suffix
        if (S.findTask pred_scheduled_id).isSome then some pred_scheduled_id else none)
    | none =>
      task_def.predecessors.filterMap (fun pred_base_id =>
        if (S.findTask pred_base_id).isSome then some pred_base_id else none)

/-- `DAGScheduler._get_data_from_predecessor`. -/
def DAGScheduler.get_data_from_predecessor (S : DAGScheduler)
    (pred_task_id current_task_id : String) : ℚ :=
  match S.findDef (get_base_task_id pred_task_id) with
  | none => 0
  | some task_def => task_def.get_data_to_successor (get_base_task_id current_task_id)

/-- The uplink loop of `_execute_task`: for each predecessor present in the
schedule and owing a positive byte volume, the topology transfer time from
its node to `my_node`; `none` models a raised `ValueError`. -/
def DAGScheduler.transfersFor (S : DAGScheduler) (current_task_id my_node : String) :
    List String → Option (List ℚ)
  | [] => some []
  | pred_id :: rest =>
    match S.findTask pred_id with
    | none => S.transfersFor current_task_id my_node rest
    | some pred_task =>
      let data_size := S.get_data_from_predecessor pred_id current_task_id
      if 0 < data_size then
        match S.topology.get_transfer_time pred_task.node_id my_node data_size with
        | none => none
        | some tt =>
          match S.transfersFor current_task_id my_node rest with
          | none => none
          | some ts => some (tt :: ts)
      else S.transfersFor current_task_id my_node rest

/-- Python's `max(transfer_times)` guarded by `if transfer_times else 0.0`:
used in statements to name the uplink value computed by `_execute_task`. -/
def pymax (ts : List ℚ) : ℚ :=
  match ts with
  | [] => 0
  | x :: xs => xs.foldl max x

/-- The final state of one scheduled task after the replay:
`done ready uplink compute` records a task that completed with
`actual_start = ready + uplink` and `actual_end = ready + uplink + compute`;
`blocked` is a process suspended forever (its `actual_end` stays `None`);
`err` is a process that raised (the exception propagates out of
`env.run()`). -/
inductive TaskOutcome where
  | done (ready uplink compute : ℚ)
  | blocked
  | err
deriving DecidableEq, Repr

/-- Whether the task completed. -/
def TaskOutcome.isDone : TaskOutcome → Bool
  | .done _ _ _ => true
  | _ => false

/-- The recorded `actual_end`, when set. -/
def TaskOutcome.endTime? : TaskOutcome → Option ℚ
  | .done r u c => some (r + u + c)
  | _ => none

/-- The recorded final `actual_start`, when set. -/
def TaskOutcome.startTime? : TaskOutcome → Option ℚ
  | .done r u _ => some (r + u)
  | _ => none

/-- One step of `_execute_task`, given the predecessors' outcomes:
missing task definition raises; any incomplete predecessor blocks the task;
otherwise the task resumes at the latest predecessor end (simulated time
starts at 0), pays the maximal positive-volume transfer time, then the
compute time (`simpy` raises on a negative `timeout` delay). -/
def DAGScheduler.outcomeBody (S : DAGScheduler) (tid : String)
    (predOuts : List TaskOutcome) : TaskOutcome :=
  match S.findTask tid with
  | none => .blocked
  | some st =>
    match S.findDef (get_base_task_id tid) with
    | none => .err
    | some td =>
      if predOuts.all TaskOutcome.isDone then
        let ready := (predOuts.filterMap TaskOutcome.endTime?).foldl max 0
        match S.transfersFor tid st.node_id (S.get_predecessors tid) with
        | none => .err
        | some ts =>
          let uplink := match ts with | [] => 0 | x :: xs => xs.foldl max x
          match S.topology.get_compute_time st.node_id td.compute_cost S.base_compute_speed with
          | none => .err
          | some c => if c < 0 then .err else .done ready uplink c
      else .blocked

/-- The fuel-indexed evaluator for one scheduled task's final state. -/
def DAGScheduler.outcome (S : DAGScheduler) : Nat → String → TaskOutcome
  | 0, _ => .blocked
  | fuel + 1, tid =>
    S.outcomeBody tid ((S.get_predecessors tid).map (fun p => S.outcome fuel p))

/-- `DAGScheduler.run`: run every process to quiescence, then
`max(task.actual_end for task in ... if task.actual_end is not None)`.
`none` models the two failure modes: a process raised (the exception
propagates out of `env.run()`), or no task recorded an `actual_end`
(`max()` of an empty sequence raises `ValueError`).  A chain of resolved
predecessors repeats no scheduled id, so `scheduled_tasks.length` is enough
fuel for every task that completes. -/
def DAGScheduler.run (S : DAGScheduler) : Option ℚ :=
  if (S.scheduled_tasks.map (fun st => S.outcome S.scheduled_tasks.length st.task_id)).any
      (fun o => o == TaskOutcome.err) then none
  else
    match (S.scheduled_tasks.map
        (fun st => S.outcome S.scheduled_tasks.length st.task_id)).filterMap
        TaskOutcome.endTime? with
    | [] => none
    | e :: es => some (es.foldl max e)

/-! ## Loader (`loaders.py`)

`load_dag` builds `TaskDefinition`s from the decoded JSON dictionaries.
JSON decoding and the textual parsing of the `"('T0', 'T1')"` edge-weight
keys are upstream of the embedded function, which receives the decoded
`node_weights`, `dag_structure.edges` and per-source edge-weight maps
(Python dicts, embedded as association lists with distinct keys). -/

/-- The predecessor list accumulated for `tid` by `load_dag`'s
`for src, successors in edges.items(): for dst in successors: ...` loop. -/
def dag_predecessors (edges : List (String × List String)) (tid : String) : List String :=
  edges.foldr
    (fun e acc => ((e.2.filter (fun dst => dst == tid)).map (fun _ => e.1)) ++ acc)
    []

/-- `load_dag`'s construction of the task definitions. -/
def load_dag (node_weights : List (String × ℚ)) (edges : List (String × List String))
    (edge_weights : List (String × List (String × ℚ))) : List TaskDefinition :=
  node_weights.map (fun nc =>
    { task_id := nc.1
      compute_cost := nc.2
      successors := match edges.find? (fun e => e.1 == nc.1) with
        | some e => e.2
        | none => []
      predecessors := dag_predecessors edges nc.1
      edge_weights := match edge_weights.find? (fun e => e.1 == nc.1) with
        | some e => e.2
        | none => [] })

/-! ## Auxiliary predicates used in the statements -/

/-- Whether processing link `l` in `_build_graph` writes the `_link_map` key
`k`: a self-loop writes its own directed pair; any other link writes both
orderings of its endpoints. -/
def setsKeyB (l : NetworkLink) (k : String × String) : Bool :=
  (l.source == k.1 && l.target == k.2) ||
    (!(l.source == l.target) && l.source == k.2 && l.target == k.1)

/-- A simple path of the topology graph: starts at `s`, ends at `tgt`,
repeats no vertex, and each consecutive pair is a graph edge. -/
def IsSimplePath (t : DAGTopology) (p : List String) (s tgt : String) : Prop :=
  p.head? = some s ∧ p.getLast? = some tgt ∧ p.Nodup ∧
    p.Chain' (fun a b => (t.graphEdge a b).isSome = true)

/-! ## Concrete instances used by the claim theorems and witnesses -/

/-- The spec's end-to-end scenario, task `T0`: compute cost 10, owing
1,000,000 bytes to its successor `T1`. -/
def tdT0 : TaskDefinition := ⟨"T0", 10, ["T1"], [], [("T1", 1000000)]⟩

/-- The spec's end-to-end scenario, task `T1`: compute cost 5. -/
def tdT1 : TaskDefinition := ⟨"T1", 5, [], ["T0"], []⟩

/-- Scenario node `n0`, speed multiplier 1. -/
def nodeN0 : ComputeNode := ⟨"n0", 1, "DU"⟩

/-- Scenario node `n1`, speed multiplier 1. -/
def nodeN1 : ComputeNode := ⟨"n1", 1, "DU"⟩

/-- The scenario's single link, bandwidth field 8,000,000. -/
def linkN0N1 : NetworkLink := ⟨"n0", "n1", 8000000, "core"⟩

/-- The scenario topology: two nodes joined by one link. -/
def topoA : DAGTopology := ⟨[nodeN0, nodeN1], [linkN0N1]⟩

/-- Scenario schedule entry for `T0` on `n0`. -/
def stT0 : ScheduledTask := ⟨"T0", "n0", 0, 10, 10⟩

/-- Scenario schedule entry for `T1` on `n1`. -/
def stT1 : ScheduledTask := ⟨"T1", "n1", 11, 16, 5⟩

/-- The spec's end-to-end scenario assembled (base compute speed 1). -/
def schedA : DAGScheduler := ⟨topoA, [tdT0, tdT1], [stT0, stT1], 1⟩

/-- Schedule entry `T0_c6` (cell-suffixed instance of `T0`) on `n0`. -/
def stU0 : ScheduledTask := ⟨"T0_c6", "n0", 0, 10, 10⟩

/-- Schedule entry `T1_c6` (cell-suffixed instance of `T1`) on `n1`. -/
def stU1 : ScheduledTask := ⟨"T1_c6", "n1", 11, 16, 5⟩

/-- The scenario rescheduled under cell-suffixed ids. -/
def schedB : DAGScheduler := ⟨topoA, [tdT0, tdT1], [stU0, stU1], 1⟩

/-- Cyclic task `A` (predecessor `B`). -/
def tdCycA : TaskDefinition := ⟨"A", 1, ["B"], ["B"], []⟩

/-- Cyclic task `B` (predecessor `A`). -/
def tdCycB : TaskDefinition := ⟨"B", 1, ["A"], ["A"], []⟩

/-- Independent task `C` with compute cost 5. -/
def tdIndC : TaskDefinition := ⟨"C", 5, [], [], []⟩

/-- Schedule entry for cyclic task `A`. -/
def stCycA : ScheduledTask := ⟨"A", "n0", 0, 1, 1⟩

/-- Schedule entry for cyclic task `B`. -/
def stCycB : ScheduledTask := ⟨"B", "n0", 1, 2, 1⟩

/-- Schedule entry for independent task `C`. -/
def stIndC : ScheduledTask := ⟨"C", "n0", 0, 5, 5⟩

/-- Single-node topology for the cyclic-schedule instance. -/
def topoC : DAGTopology := ⟨[nodeN0], []⟩

/-- A schedule with a dependency cycle `A ↔ B` plus an independent task `C`:
the two cyclic processes deadlock while `C` completes. -/
def schedC : DAGScheduler := ⟨topoC, [tdCycA, tdCycB, tdIndC], [stCycA, stCycB, stIndC], 1⟩

/-- A self-loop link on `n0`, bandwidth field 16. -/
def linkLoop0 : NetworkLink := ⟨"n0", "n0", 16, "self-loop"⟩

/-- Scenario topology extended with a self-loop on `n0`. -/
def topoD : DAGTopology := ⟨[nodeN0, nodeN1], [linkN0N1, linkLoop0]⟩

/-- `node_weights` input of a two-task DAG file. -/
def nwW : List (String × ℚ) := [("T0", 10), ("T1", 5)]

/-- `dag_structure.edges` input of the two-task DAG file. -/
def edgesW : List (String × List String) := [("T0", ["T1"])]

/-- The `TaskDefinition` that `load_dag` builds for `T0` from `nwW`/`edgesW`. -/
def tdLoadT0 : TaskDefinition := ⟨"T0", 10, ["T1"], [], []⟩

/-- The `TaskDefinition` that `load_dag` builds for `T1` from `nwW`/`edgesW`. -/
def tdLoadT1 : TaskDefinition := ⟨"T1", 5, [], ["T0"], []⟩

/-! # Theorems

First general-purpose lemmas about the embedded operations, then the claim
theorems (named `C1_*` … `C10_*`) with their witnesses. -/

/-! ## Extended-weight order lemmas -/

theorem EWeight.leB_refl (a : EWeight) : a.leB a = true := by
  cases a <;> simp [EWeight.leB]

theorem EWeight.leB_trans {a b c : EWeight} (h₁ : a.leB b = true) (h₂ : b.leB c = true) :
    a.leB c = true := by
  cases a <;> cases b <;> cases c <;> simp_all [EWeight.leB]
  all_goals linarith

theorem EWeight.leB_of_not_ltB {a b : EWeight} (h : a.ltB b = false) : b.leB a = true := by
  cases a <;> cases b <;> simp_all [EWeight.ltB, EWeight.leB]

theorem EWeight.leB_of_ltB {a b : EWeight} (h : a.ltB b = true) : a.leB b = true := by
  cases a <;> cases b <;> simp_all [EWeight.ltB, EWeight.leB]
  all_goals linarith

theorem EWeight.ltB_self (a : EWeight) : a.ltB a = false := by
  cases a <;> simp [EWeight.ltB]

/-! ## Fold-max lemmas (Python `max` over a list) -/

theorem le_foldl_max : ∀ (l : List ℚ) (a : ℚ), a ≤ l.foldl max a
  | [], a => le_refl a
  | x :: xs, a => le_trans (le_max_left a x) (le_foldl_max xs (max a x))

theorem foldl_max_le_of_mem : ∀ {l : List ℚ} (a : ℚ) {x : ℚ}, x ∈ l → x ≤ l.foldl max a
  | x' :: xs, a, x, h => by
    rcases List.mem_cons.mp h with rfl | h
    · exact le_trans (le_max_right a x) (le_foldl_max xs _)
    · exact foldl_max_le_of_mem (max a x') h

theorem foldl_max_mem : ∀ (xs : List ℚ) (a : ℚ), xs.foldl max a ∈ a :: xs
  | [], _ => by simp
  | x :: xs, a => by
    have h := foldl_max_mem xs (max a x)
    simp only [List.foldl_cons]
    rcases List.mem_cons.mp h with h | h
    · rcases max_choice a x with h' | h'
      · rw [h, h']; exact List.mem_cons_self _ _
      · rw [h, h']; exact List.mem_cons.mpr (Or.inr (List.mem_cons_self _ _))
    · exact List.mem_cons.mpr (Or.inr (List.mem_cons.mpr (Or.inr h)))

/-! ## Evaluator equations and inversion -/

theorem outcome_zero (S : DAGScheduler) (tid : String) : S.outcome 0 tid = .blocked := rfl

theorem outcome_succ (S : DAGScheduler) (f : Nat) (tid : String) :
    S.outcome (f + 1) tid =
      S.outcomeBody tid ((S.get_predecessors tid).map (fun p => S.outcome f p)) := rfl

theorem outcomeBody_done_inv {S : DAGScheduler} {tid : String} {predOuts : List TaskOutcome}
    {r u c : ℚ} (h : S.outcomeBody tid predOuts = .done r u c) :
    predOuts.all TaskOutcome.isDone = true ∧
    r = (predOuts.filterMap TaskOutcome.endTime?).foldl max 0 ∧
    0 ≤ c ∧
    ∃ st, S.findTask tid = some st ∧
      ∃ ts, S.transfersFor tid st.node_id (S.get_predecessors tid) = some ts ∧
        u = pymax ts := by
  unfold DAGScheduler.outcomeBody at h
  cases hft : S.findTask tid with
  | none => rw [hft] at h; cases h
  | some st =>
    rw [hft] at h
    dsimp only at h
    cases hfd : S.findDef (get_base_task_id tid) with
    | none => rw [hfd] at h; cases h
    | some td =>
      rw [hfd] at h
      dsimp only at h
      by_cases hall : predOuts.all TaskOutcome.isDone = true
      · rw [if_pos hall] at h
        cases hts : S.transfersFor tid st.node_id (S.get_predecessors tid) with
        | none => rw [hts] at h; cases h
        | some ts =>
          rw [hts] at h
          dsimp only at h
          cases hct : S.topology.get_compute_time st.node_id td.compute_cost
              S.base_compute_speed with
          | none => rw [hct] at h; cases h
          | some c' =>
            rw [hct] at h
            dsimp only at h
            by_cases hneg : c' < 0
            · rw [if_pos hneg] at h; cases h
            · rw [if_neg hneg] at h
              injection h with hr hu hc
              refine ⟨hall, hr.symm, ?_, st, rfl, ts, hts, hu.symm⟩
              rw [← hc]; exact le_of_not_lt hneg
      · rw [if_neg hall] at h; cases h

theorem outcome_mono (S : DAGScheduler) :
    ∀ (f : Nat) (tid : String) (r u c : ℚ),
      S.outcome f tid = .done r u c → S.outcome (f + 1) tid = .done r u c := by
  intro f
  induction f with
  | zero => intro tid r u c h; rw [outcome_zero] at h; cases h
  | succ f ih =>
    intro tid r u c h
    rw [outcome_succ] at h
    rw [outcome_succ]
    have hall := (outcomeBody_done_inv h).1
    have hmap : (S.get_predecessors tid).map (fun p => S.outcome (f + 1) p)
        = (S.get_predecessors tid).map (fun p => S.outcome f p) := by
      apply List.map_congr_left
      intro p hp
      have hd : (S.outcome f p).isDone = true :=
        List.all_eq_true.mp hall _ (List.mem_map_of_mem _ hp)
      cases ho : S.outcome f p with
      | done r' u' c' => exact ih p r' u' c' ho
      | blocked => rw [ho] at hd; cases hd
      | err => rw [ho] at hd; cases hd
    rw [hmap]; exact h

/-! ## Nonnegativity of transfer times -/

theorem optMap_mem {α β : Type} {f : α → Option β} :
    ∀ {l : List α} {ys : List β}, optMap f l = some ys → ∀ y ∈ ys, ∃ x ∈ l, f x = some y := by
  intro l
  induction l with
  | nil => intro ys h y hy; cases h; cases hy
  | cons x xs ih =>
    intro ys h y hy
    unfold optMap at h
    cases hfx : f x with
    | none => rw [hfx] at h; cases h
    | some y' =>
      rw [hfx] at h
      cases hrest : optMap f xs with
      | none => rw [hrest] at h; cases h
      | some ys' =>
        rw [hrest] at h
        injection h with h
        subst h
        rcases List.mem_cons.mp hy with rfl | hy
        · exact ⟨x, List.mem_cons_self _ _, hfx⟩
        · obtain ⟨x', hx', hfx'⟩ := ih hrest y hy
          exact ⟨x', List.mem_cons.mpr (Or.inr hx'), hfx'⟩

theorem link_transfer_nonneg {l : NetworkLink} {b x : ℚ}
    (h : l.get_transfer_time b = some x) (hb : 0 ≤ b) : 0 ≤ x := by
  unfold NetworkLink.get_transfer_time at h
  by_cases hbw : l.bandwidth ≤ 0
  · rw [if_pos hbw] at h; cases h
  · rw [if_neg hbw] at h
    injection h with h
    subst h
    have hpos : 0 < l.bandwidth * 1000000 / 8 := by
      have := lt_of_not_le hbw
      positivity
    exact div_nonneg hb (le_of_lt hpos)

theorem topo_transfer_nonneg {t : DAGTopology} {s tgt : String} {b x : ℚ}
    (h : t.get_transfer_time s tgt b = some x) (hb : 0 ≤ b) : 0 ≤ x := by
  unfold DAGTopology.get_transfer_time at h
  by_cases hst : (s == tgt) = true
  · rw [if_pos hst] at h
    cases hl : t.get_link s tgt with
    | none => rw [hl] at h; injection h with h; subst h; exact le_refl 0
    | some l => rw [hl] at h; exact link_transfer_nonneg h hb
  · rw [if_neg hst] at h
    cases hpl : t.get_path_links s tgt with
    | none => rw [hpl] at h; cases h
    | some ls =>
      rw [hpl] at h
      dsimp only at h
      by_cases hnil : ls = []
      · rw [if_pos hnil] at h; cases h
      · rw [if_neg hnil] at h
        cases hom : optMap (fun l => l.get_transfer_time b) ls with
        | none => rw [hom] at h; cases h
        | some ts =>
          rw [hom] at h
          injection h with h
          subst h
          apply List.sum_nonneg
          intro y hy
          obtain ⟨l, _, hfl⟩ := optMap_mem hom y hy
          exact link_transfer_nonneg hfl hb

theorem transfersFor_nonneg {S : DAGScheduler} {tid node : String} :
    ∀ {ps : List String} {ts : List ℚ},
      S.transfersFor tid node ps = some ts → ∀ x ∈ ts, 0 ≤ x := by
  intro ps
  induction ps with
  | nil => intro ts h x hx; cases h; cases hx
  | cons p rest ih =>
    intro ts h x hx
    unfold DAGScheduler.transfersFor at h
    cases hft : S.findTask p with
    | none => rw [hft] at h; exact ih h x hx
    | some pt =>
      rw [hft] at h
      dsimp only at h
      by_cases hd : 0 < S.get_data_from_predecessor p tid
      · rw [if_pos hd] at h
        cases htt : S.topology.get_transfer_time pt.node_id node
            (S.get_data_from_predecessor p tid) with
        | none => rw [htt] at h; cases h
        | some tt =>
          rw [htt] at h
          dsimp only at h
          cases hrest : S.transfersFor tid node rest with
          | none => rw [hrest] at h; cases h
          | some ts' =>
            rw [hrest] at h
            injection h with h
            subst h
            rcases List.mem_cons.mp hx with rfl | hx
            · exact topo_transfer_nonneg htt (le_of_lt hd)
            · exact ih hrest x hx
      · rw [if_neg hd] at h; exact ih h x hx

/-- The uplink value defined by the loop is nonnegative: each transfer is. -/
theorem uplink_nonneg {S : DAGScheduler} {tid node : String} {ps : List String} {ts : List ℚ}
    (h : S.transfersFor tid node ps = some ts) :
    0 ≤ pymax ts := by
  cases ts with
  | nil => exact le_refl 0
  | cons x xs =>
    have hx : 0 ≤ x := transfersFor_nonneg h x (List.mem_cons_self _ _)
    exact le_trans hx (le_foldl_max xs x)

/-- The uplink loop, rephrased: it evaluates the topology transfer time on
exactly the predecessors that are present in the schedule and owe a positive
byte volume. -/
theorem transfersFor_eq_optMap (S : DAGScheduler) (tid node : String) :
    ∀ ps : List String,
      S.transfersFor tid node ps =
        optMap
          (fun p =>
            match S.findTask p with
            | some pt =>
              S.topology.get_transfer_time pt.node_id node (S.get_data_from_predecessor p tid)
            | none => none)
          (ps.filter (fun p =>
            (S.findTask p).isSome && decide (0 < S.get_data_from_predecessor p tid))) := by
  intro ps
  induction ps with
  | nil => rfl
  | cons p rest ih =>
    unfold DAGScheduler.transfersFor
    rw [List.filter_cons]
    cases hft : S.findTask p with
    | none =>
      simp only [hft, Option.isSome_none, Bool.false_and, if_neg (by simp : ¬(false = true))]
      exact ih
    | some pt =>
      dsimp only
      by_cases hd : 0 < S.get_data_from_predecessor p tid
      · rw [if_pos hd,
          if_pos (show ((some pt : Option ScheduledTask).isSome &&
            decide (0 < S.get_data_from_predecessor p tid)) = true by simp [hd])]
        unfold optMap
        rw [hft, ih]
        dsimp only
        rcases S.topology.get_transfer_time pt.node_id node
            (S.get_data_from_predecessor p tid) with _ | tt <;>
          rcases optMap
              (fun p =>
                match S.findTask p with
                | some pt =>
                  S.topology.get_transfer_time pt.node_id node
                    (S.get_data_from_predecessor p tid)
                | none => none)
              (List.filter (fun p =>
                (S.findTask p).isSome &&
                  decide (0 < S.get_data_from_predecessor p tid)) rest) with _ | ts <;>
          rfl
      · rw [if_neg hd,
          if_neg (show ¬ ((some pt : Option ScheduledTask).isSome &&
            decide (0 < S.get_data_from_predecessor p tid)) = true by simp [hd])]
        exact ih

theorem optMap_ne_nil {α β : Type} {f : α → Option β} {l : List α} {ys : List β}
    (h : optMap f l = some ys) (hl : l ≠ []) : ys ≠ [] := by
  cases l with
  | nil => exact absurd rfl hl
  | cons x xs =>
    unfold optMap at h
    cases hfx : f x with
    | none => rw [hfx] at h; cases h
    | some y =>
      rw [hfx] at h
      cases hrest : optMap f xs with
      | none => rw [hrest] at h; cases h
      | some ys' =>
        rw [hrest] at h
        injection h with h
        rw [← h]
        exact List.cons_ne_nil y ys'

/-! ## Concrete evaluations of the end-to-end scenario -/

theorem chooseMinPath_pair_self (w : List String → EWeight) (p : List String) :
    chooseMinPath w [p, p] = some p := by
  simp [chooseMinPath, EWeight.ltB_self]

theorem topoA_pathsFrom :
    topoA.pathsFrom topoA.graphNodes.length [] "n0" "n1" = [["n0", "n1"], ["n0", "n1"]] := by
  decide

theorem topoA_get_path : topoA.get_path "n0" "n1" = some ["n0", "n1"] := by
  unfold DAGTopology.get_path
  rw [if_neg (by decide : ¬ (("n0" == "n1") = true)), topoA_pathsFrom, chooseMinPath_pair_self]

theorem topoA_consec : topoA.consecLinks ["n0", "n1"] = [linkN0N1] := by decide

theorem topoA_path_links : topoA.get_path_links "n0" "n1" = some [linkN0N1] := by
  unfold DAGTopology.get_path_links
  rw [if_neg (by decide : ¬ (("n0" == "n1") = true)), topoA_get_path]
  simp only [Option.map_some', topoA_consec]

theorem topoA_transfer : topoA.get_transfer_time "n0" "n1" 1000000 = some (1 / 1000000) := by
  unfold DAGTopology.get_transfer_time
  rw [if_neg (by decide : ¬ (("n0" == "n1") = true)), topoA_path_links]
  dsimp only
  rw [if_neg (by decide : ¬ ([linkN0N1] = ([] : List NetworkLink)))]
  unfold optMap NetworkLink.get_transfer_time
  rw [if_neg (by decide : ¬ (linkN0N1.bandwidth ≤ 0))]
  norm_num [linkN0N1, optMap]

theorem outcomeBody_eval {S : DAGScheduler} {tid : String} {st : ScheduledTask}
    {td : TaskDefinition} {ts : List ℚ} {c : ℚ} {predOuts : List TaskOutcome}
    (hst : S.findTask tid = some st)
    (htd : S.findDef (get_base_task_id tid) = some td)
    (hall : predOuts.all TaskOutcome.isDone = true)
    (hts : S.transfersFor tid st.node_id (S.get_predecessors tid) = some ts)
    (hct : S.topology.get_compute_time st.node_id td.compute_cost S.base_compute_speed = some c)
    (hc : ¬ c < 0) :
    S.outcomeBody tid predOuts =
      .done ((predOuts.filterMap TaskOutcome.endTime?).foldl max 0) (pymax ts) c := by
  unfold DAGScheduler.outcomeBody
  rw [hst]; dsimp only; rw [htd]; dsimp only
  rw [if_pos hall]
  simp only [hts]
  simp only [hct]
  rw [if_neg hc]
  rfl

theorem outcomeBody_blocked_eval {S : DAGScheduler} {tid : String} {st : ScheduledTask}
    {td : TaskDefinition} {predOuts : List TaskOutcome}
    (hst : S.findTask tid = some st)
    (htd : S.findDef (get_base_task_id tid) = some td)
    (hall : predOuts.all TaskOutcome.isDone = false) :
    S.outcomeBody tid predOuts = .blocked := by
  unfold DAGScheduler.outcomeBody
  rw [hst]; dsimp only; rw [htd]; dsimp only
  rw [if_neg (by rw [hall]; exact Bool.false_ne_true)]

theorem schedA_preds_T0 : schedA.get_predecessors "T0" = [] := by decide

theorem schedA_preds_T1 : schedA.get_predecessors "T1" = ["T0"] := by decide

theorem schedA_compute_n0 :
    schedA.topology.get_compute_time "n0" tdT0.compute_cost schedA.base_compute_speed
      = some 10 := by
  unfold DAGTopology.get_compute_time
  rw [show (schedA.topology.nodes.find? (fun n => n.node_id == "n0")) = some nodeN0 by decide]
  unfold ComputeNode.get_compute_time ComputeNode.get_capacity
  norm_num [nodeN0, tdT0, schedA]

theorem schedA_compute_n1 :
    schedA.topology.get_compute_time "n1" tdT1.compute_cost schedA.base_compute_speed
      = some 5 := by
  unfold DAGTopology.get_compute_time
  rw [show (schedA.topology.nodes.find? (fun n => n.node_id == "n1")) = some nodeN1 by decide]
  unfold ComputeNode.get_compute_time ComputeNode.get_capacity
  norm_num [nodeN1, tdT1, schedA]

theorem schedA_outcome_T0 : schedA.outcome 1 "T0" = .done 0 0 10 := by
  rw [show (1 : Nat) = 0 + 1 from rfl, outcome_succ, schedA_preds_T0]
  simp only [List.map_nil]
  rw [outcomeBody_eval (show schedA.findTask "T0" = some stT0 by decide)
    (show schedA.findDef (get_base_task_id "T0") = some tdT0 by decide)
    (by decide)
    (show schedA.transfersFor "T0" stT0.node_id (schedA.get_predecessors "T0") = some [] by
      rw [schedA_preds_T0]; rfl)
    schedA_compute_n0 (by norm_num)]
  norm_num [pymax]

theorem schedA_transfers_T1 :
    schedA.transfersFor "T1" stT1.node_id (schedA.get_predecessors "T1")
      = some [1 / 1000000] := by
  rw [schedA_preds_T1]
  unfold DAGScheduler.transfersFor
  rw [show schedA.findTask "T0" = some stT0 by decide]
  dsimp only
  rw [if_pos (show (0 : ℚ) < schedA.get_data_from_predecessor "T0" "T1" by
    rw [show schedA.get_data_from_predecessor "T0" "T1" = 1000000 by decide]; norm_num)]
  rw [show schedA.get_data_from_predecessor "T0" "T1" = 1000000 by decide]
  rw [show stT0.node_id = "n0" from rfl, show stT1.node_id = "n1" from rfl]
  rw [show schedA.topology = topoA from rfl, topoA_transfer]
  rfl

theorem schedA_outcome_T1 : schedA.outcome 2 "T1" = .done 10 (1 / 1000000) 5 := by
  rw [show (2 : Nat) = 1 + 1 from rfl, outcome_succ, schedA_preds_T1]
  simp only [List.map_cons, List.map_nil, schedA_outcome_T0]
  rw [outcomeBody_eval (show schedA.findTask "T1" = some stT1 by decide)
    (show schedA.findDef (get_base_task_id "T1") = some tdT1 by decide)
    (by decide)
    schedA_transfers_T1
    schedA_compute_n1 (by norm_num)]
  norm_num [pymax, TaskOutcome.endTime?, List.filterMap_cons, List.filterMap_nil]

theorem schedA_outcome_T0_fuel2 : schedA.outcome 2 "T0" = .done 0 0 10 :=
  outcome_mono schedA 1 "T0" 0 0 10 schedA_outcome_T0

theorem schedA_run : schedA.run = some (15 + 1 / 1000000) := by
  unfold DAGScheduler.run
  rw [show schedA.scheduled_tasks.map
        (fun st => schedA.outcome schedA.scheduled_tasks.length st.task_id)
      = [schedA.outcome 2 "T0", schedA.outcome 2 "T1"] from rfl]
  rw [schedA_outcome_T0_fuel2, schedA_outcome_T1]
  rw [if_neg (by decide :
    ¬ (([TaskOutcome.done 0 0 10, TaskOutcome.done 10 (1 / 1000000) 5].any
        (fun o => o == TaskOutcome.err)) = true))]
  norm_num [TaskOutcome.endTime?, List.filterMap_cons, List.filterMap_nil]

/-! ## Claim C5 — compute span and predecessor ordering -/

/-- C5: for every task that completes the replay, the final recorded
`actual_start` is the post-transfer value, so `actual_end − actual_start`
equals `compute_time` exactly, and `actual_start` (`r + u`) is no earlier
than the simulated completion time of every resolved predecessor. -/
theorem C5_compute_span (S : DAGScheduler) (f : Nat) (tid : String) (r u c : ℚ)
    (h : S.outcome f tid = .done r u c) (p : String) (hp : p ∈ S.get_predecessors tid) :
    ((r + u + c) - (r + u) = c) ∧
    ∃ r' u' c', S.outcome f p = .done r' u' c' ∧ r' + u' + c' ≤ r + u := by
  refine ⟨by ring, ?_⟩
  cases f with
  | zero => rw [outcome_zero] at h; cases h
  | succ f =>
    rw [outcome_succ] at h
    obtain ⟨hall, hr, hc, st, hst, ts, hts, hu⟩ := outcomeBody_done_inv h
    have hdp : (S.outcome f p).isDone = true :=
      List.all_eq_true.mp hall _ (List.mem_map_of_mem _ hp)
    cases ho : S.outcome f p with
    | blocked => rw [ho] at hdp; cases hdp
    | err => rw [ho] at hdp; cases hdp
    | done r' u' c' =>
      refine ⟨r', u', c', outcome_mono S f p r' u' c' ho, ?_⟩
      have hmem : (r' + u' + c') ∈
          (((S.get_predecessors tid).map (fun q => S.outcome f q)).filterMap
            TaskOutcome.endTime?) :=
        List.mem_filterMap.mpr ⟨S.outcome f p, List.mem_map_of_mem _ hp, by rw [ho]; rfl⟩
      have hle : r' + u' + c' ≤ r := by
        rw [hr]; exact foldl_max_le_of_mem 0 hmem
      have hu0 : 0 ≤ u := by rw [hu]; exact uplink_nonneg hts
      linarith

/-- C5 witness: in the end-to-end scenario `T1` completes with
`actual_start = 10 + 1/1000000`, no earlier than predecessor `T0`'s end. -/
theorem C5_compute_span_witness :
    ((10 + 1 / 1000000 + 5 : ℚ) - (10 + 1 / 1000000) = 5) ∧
    ∃ r' u' c', schedA.outcome 2 "T0" = .done r' u' c' ∧
      r' + u' + c' ≤ 10 + 1 / 1000000 :=
  C5_compute_span schedA 2 "T1" 10 (1 / 1000000) 5 schedA_outcome_T1 "T0"
    (by rw [schedA_preds_T1]; exact List.mem_singleton.mpr rfl)

/-! ## Claim C4 — uplink is the maximum of the owing predecessors' transfers -/

/-- C4: for every scheduled task that completes with at least one resolved
predecessor owing it a positive byte volume, the recorded `uplink_time` is
the maximum — an element of the list of individual transfer times that
bounds every element — of exactly the transfer times of the owing
predecessors (those present in the schedule with positive byte volume);
predecessors owing zero bytes are filtered out and contribute nothing. -/
theorem C4_uplink_max (S : DAGScheduler) (f : Nat) (tid : String) (st : ScheduledTask)
    (r u c : ℚ) (hst : S.findTask tid = some st)
    (h : S.outcome (f + 1) tid = .done r u c)
    (howe : (S.get_predecessors tid).filter
        (fun p => (S.findTask p).isSome && decide (0 < S.get_data_from_predecessor p tid))
      ≠ []) :
    ∃ ts : List ℚ,
      optMap
        (fun p => match S.findTask p with
          | some pt => S.topology.get_transfer_time pt.node_id st.node_id
              (S.get_data_from_predecessor p tid)
          | none => none)
        ((S.get_predecessors tid).filter
          (fun p => (S.findTask p).isSome && decide (0 < S.get_data_from_predecessor p tid)))
        = some ts ∧
      ts ≠ [] ∧ u ∈ ts ∧ ∀ x ∈ ts, x ≤ u := by
  rw [outcome_succ] at h
  obtain ⟨hall, hr, hc, st', hst', ts, hts, hu⟩ := outcomeBody_done_inv h
  rw [hst] at hst'
  injection hst' with hst'
  subst hst'
  rw [transfersFor_eq_optMap] at hts
  have hne : ts ≠ [] := optMap_ne_nil hts howe
  refine ⟨ts, hts, hne, ?_, ?_⟩
  · cases ts with
    | nil => exact absurd rfl hne
    | cons x xs => rw [hu]; exact foldl_max_mem xs x
  · intro y hy
    cases ts with
    | nil => exact absurd rfl hne
    | cons x xs =>
      rw [hu]
      rcases List.mem_cons.mp hy with rfl | hy
      · exact le_foldl_max xs y
      · exact foldl_max_le_of_mem x hy

/-- C4 witness: in the end-to-end scenario `T1` has the single owing
predecessor `T0`, and its uplink `1/1000000` is the maximum of the
transfer-time list. -/
theorem C4_uplink_max_witness :
    ∃ ts : List ℚ,
      optMap
        (fun p => match schedA.findTask p with
          | some pt => schedA.topology.get_transfer_time pt.node_id stT1.node_id
              (schedA.get_data_from_predecessor p "T1")
          | none => none)
        ((schedA.get_predecessors "T1").filter
          (fun p => (schedA.findTask p).isSome &&
            decide (0 < schedA.get_data_from_predecessor p "T1")))
        = some ts ∧
      ts ≠ [] ∧ (1 / 1000000 : ℚ) ∈ ts ∧ ∀ x ∈ ts, x ≤ (1 / 1000000 : ℚ) :=
  C4_uplink_max schedA 1 "T1" stT1 10 (1 / 1000000) 5 (by decide) schedA_outcome_T1
    (by decide)

/-! ## Claim C10 — no delay to `scheduled_start` -/

/-- C10: the replay never delays a task to its `scheduled_start`.  The
evaluator never reads the `scheduled_start` field: here `S` is arbitrary, so
the conclusion holds for every value of every task's `scheduled_start`.  A
completed task with an empty resolved predecessor set has `ready = 0` and
`uplink_time = 0`, so its recorded `actual_start` (`r + u`) is `0`, the
simulation start instant. -/
theorem C10_no_scheduled_delay (S : DAGScheduler) (f : Nat) (tid : String) (r u c : ℚ)
    (hpred : S.get_predecessors tid = [])
    (h : S.outcome (f + 1) tid = .done r u c) :
    r + u = 0 ∧ r = 0 ∧ u = 0 := by
  rw [outcome_succ, hpred] at h
  obtain ⟨hall, hr, hc, st, hst, ts, hts, hu⟩ := outcomeBody_done_inv h
  rw [hpred] at hts
  have hts' : ts = [] := by
    unfold DAGScheduler.transfersFor at hts
    injection hts with h'
    exact h'.symm
  subst hts'
  simp only [List.map_nil, List.filterMap_nil, List.foldl_nil] at hr
  have hu' : u = 0 := by rw [hu]; rfl
  exact ⟨by rw [hr, hu']; ring, hr, hu'⟩

/-- C10 witness: `T0` has no predecessors and a nonzero `scheduled_start`
would not matter — its recorded `actual_start` is `0`. -/
theorem C10_no_scheduled_delay_witness : (0 + 0 : ℚ) = 0 ∧ (0 : ℚ) = 0 ∧ (0 : ℚ) = 0 :=
  C10_no_scheduled_delay schedA 0 "T0" 0 0 10 schedA_preds_T0 schedA_outcome_T0

/-! ## Claim C2 — makespan and silently ignored unset `actual_end` -/

/-- C2 (amended): when `run()` returns a makespan, it is the maximum of the
recorded `actual_end` values over the scheduled tasks that have one — it is
one of those values and bounds all of them.  Tasks that never completed are
silently excluded by the `if task.actual_end is not None` filter rather
than surfaced as an error. -/
theorem C2_amended_makespan (S : DAGScheduler) (m : ℚ) (h : S.run = some m) :
    (∃ st ∈ S.scheduled_tasks,
        (S.outcome S.scheduled_tasks.length st.task_id).endTime? = some m) ∧
    ∀ st ∈ S.scheduled_tasks, ∀ e : ℚ,
        (S.outcome S.scheduled_tasks.length st.task_id).endTime? = some e → e ≤ m := by
  unfold DAGScheduler.run at h
  by_cases herr : ((S.scheduled_tasks.map
      (fun st => S.outcome S.scheduled_tasks.length st.task_id)).any
      (fun o => o == TaskOutcome.err)) = true
  · rw [if_pos herr] at h; cases h
  · rw [if_neg herr] at h
    cases hends : (S.scheduled_tasks.map
        (fun st => S.outcome S.scheduled_tasks.length st.task_id)).filterMap
        TaskOutcome.endTime? with
    | nil => rw [hends] at h; cases h
    | cons e es =>
      rw [hends] at h
      dsimp only at h
      injection h with h
      subst h
      constructor
      · have hm : es.foldl max e ∈ e :: es := foldl_max_mem es e
        rw [← hends] at hm
        obtain ⟨o, ho, hoe⟩ := List.mem_filterMap.mp hm
        obtain ⟨st, hstm, hsto⟩ := List.mem_map.mp ho
        exact ⟨st, hstm, by rw [hsto]; exact hoe⟩
      · intro st hstm e' he'
        have hmem : e' ∈ (S.scheduled_tasks.map
            (fun st => S.outcome S.scheduled_tasks.length st.task_id)).filterMap
            TaskOutcome.endTime? :=
          List.mem_filterMap.mpr ⟨_, List.mem_map_of_mem _ hstm, he'⟩
        rw [hends] at hmem
        rcases List.mem_cons.mp hmem with rfl | hmem
        · exact le_foldl_max es e'
        · exact foldl_max_le_of_mem e hmem

/-- C2 witness: the end-to-end scenario's makespan `15 + 1/1000000` is a
recorded `actual_end` and bounds all recorded `actual_end` values. -/
theorem C2_amended_makespan_witness :
    (∃ st ∈ schedA.scheduled_tasks,
        (schedA.outcome schedA.scheduled_tasks.length st.task_id).endTime?
          = some (15 + 1 / 1000000)) ∧
    ∀ st ∈ schedA.scheduled_tasks, ∀ e : ℚ,
        (schedA.outcome schedA.scheduled_tasks.length st.task_id).endTime? = some e →
          e ≤ 15 + 1 / 1000000 :=
  C2_amended_makespan schedA (15 + 1 / 1000000) schedA_run

/-! ### The cyclic schedule: blocked tasks are silently dropped by `run` -/

theorem schedC_preds_A : schedC.get_predecessors "A" = ["B"] := by decide

theorem schedC_preds_B : schedC.get_predecessors "B" = ["A"] := by decide

theorem schedC_preds_C : schedC.get_predecessors "C" = [] := by decide

theorem schedC_outcome_A1 : schedC.outcome 1 "A" = .blocked := by
  rw [show (1 : Nat) = 0 + 1 from rfl, outcome_succ, schedC_preds_A]
  simp only [List.map_cons, List.map_nil, outcome_zero]
  exact outcomeBody_blocked_eval (show schedC.findTask "A" = some stCycA by decide)
    (show schedC.findDef (get_base_task_id "A") = some tdCycA by decide) (by decide)

theorem schedC_outcome_B1 : schedC.outcome 1 "B" = .blocked := by
  rw [show (1 : Nat) = 0 + 1 from rfl, outcome_succ, schedC_preds_B]
  simp only [List.map_cons, List.map_nil, outcome_zero]
  exact outcomeBody_blocked_eval (show schedC.findTask "B" = some stCycB by decide)
    (show schedC.findDef (get_base_task_id "B") = some tdCycB by decide) (by decide)

theorem schedC_outcome_A2 : schedC.outcome 2 "A" = .blocked := by
  rw [show (2 : Nat) = 1 + 1 from rfl, outcome_succ, schedC_preds_A]
  simp only [List.map_cons, List.map_nil, schedC_outcome_B1]
  exact outcomeBody_blocked_eval (show schedC.findTask "A" = some stCycA by decide)
    (show schedC.findDef (get_base_task_id "A") = some tdCycA by decide) (by decide)

theorem schedC_outcome_B2 : schedC.outcome 2 "B" = .blocked := by
  rw [show (2 : Nat) = 1 + 1 from rfl, outcome_succ, schedC_preds_B]
  simp only [List.map_cons, List.map_nil, schedC_outcome_A1]
  exact outcomeBody_blocked_eval (show schedC.findTask "B" = some stCycB by decide)
    (show schedC.findDef (get_base_task_id "B") = some tdCycB by decide) (by decide)

theorem schedC_outcome_A3 : schedC.outcome 3 "A" = .blocked := by
  rw [show (3 : Nat) = 2 + 1 from rfl, outcome_succ, schedC_preds_A]
  simp only [List.map_cons, List.map_nil, schedC_outcome_B2]
  exact outcomeBody_blocked_eval (show schedC.findTask "A" = some stCycA by decide)
    (show schedC.findDef (get_base_task_id "A") = some tdCycA by decide) (by decide)

theorem schedC_outcome_B3 : schedC.outcome 3 "B" = .blocked := by
  rw [show (3 : Nat) = 2 + 1 from rfl, outcome_succ, schedC_preds_B]
  simp only [List.map_cons, List.map_nil, schedC_outcome_A2]
  exact outcomeBody_blocked_eval (show schedC.findTask "B" = some stCycB by decide)
    (show schedC.findDef (get_base_task_id "B") = some tdCycB by decide) (by decide)

theorem schedC_compute_C :
    schedC.topology.get_compute_time "n0" tdIndC.compute_cost schedC.base_compute_speed
      = some 5 := by
  unfold DAGTopology.get_compute_time
  rw [show (schedC.topology.nodes.find? (fun n => n.node_id == "n0")) = some nodeN0 by decide]
  unfold ComputeNode.get_compute_time ComputeNode.get_capacity
  norm_num [nodeN0, tdIndC, schedC]

theorem schedC_outcome_C1 : schedC.outcome 1 "C" = .done 0 0 5 := by
  rw [show (1 : Nat) = 0 + 1 from rfl, outcome_succ, schedC_preds_C]
  simp only [List.map_nil]
  rw [outcomeBody_eval (show schedC.findTask "C" = some stIndC by decide)
    (show schedC.findDef (get_base_task_id "C") = some tdIndC by decide)
    (by decide)
    (show schedC.transfersFor "C" stIndC.node_id (schedC.get_predecessors "C") = some [] by
      rw [schedC_preds_C]; rfl)
    schedC_compute_C (by norm_num)]
  norm_num [pymax]

theorem schedC_outcome_C3 : schedC.outcome 3 "C" = .done 0 0 5 :=
  outcome_mono schedC 2 "C" 0 0 5 (outcome_mono schedC 1 "C" 0 0 5 schedC_outcome_C1)

theorem schedC_run : schedC.run = some 5 := by
  unfold DAGScheduler.run
  rw [show schedC.scheduled_tasks.map
        (fun st => schedC.outcome schedC.scheduled_tasks.length st.task_id)
      = [schedC.outcome 3 "A", schedC.outcome 3 "B", schedC.outcome 3 "C"] from rfl]
  rw [schedC_outcome_A3, schedC_outcome_B3, schedC_outcome_C3]
  rw [if_neg (by decide :
    ¬ (([TaskOutcome.blocked, TaskOutcome.blocked, TaskOutcome.done 0 0 5].any
        (fun o => o == TaskOutcome.err)) = true))]
  norm_num [TaskOutcome.endTime?, List.filterMap_cons, List.filterMap_nil]

/-- C2 counterexample: with the cyclic schedule `A ↔ B` plus independent
`C`, `run()` returns `some 5` even though scheduled task `A` (and `B`)
finished the run with no recorded `actual_end` — the unset value is
silently filtered out of the maximum, not surfaced as a fatal
post-condition violation. -/
theorem C2_counterexample :
    schedC.run = some 5 ∧
    "A" ∈ schedC.scheduled_tasks.map (fun st => st.task_id) ∧
    (schedC.outcome schedC.scheduled_tasks.length "A").endTime? = none := by
  refine ⟨schedC_run, by decide, ?_⟩
  rw [show schedC.scheduled_tasks.length = 3 from rfl, schedC_outcome_A3]
  rfl

/-! ## Claim C1 — the end-to-end scenario -/

/-- C1 counterexample: with the link's `bandwidth` field set to `8000000`,
the code (which treats the field as Mbps, i.e. `8000000 * 10^6 / 8 = 10^12`
bytes per time unit) produces `T1` `uplink_time = 1/1000000`, not `1.0`,
and `run()` returns `15 + 1/1000000`, not `16`. -/
theorem C1_scenario_counterexample :
    schedA.outcome 2 "T0" = .done 0 0 10 ∧
    schedA.outcome 2 "T1" = .done 10 (1 / 1000000) 5 ∧
    (1 / 1000000 : ℚ) ≠ 1 ∧
    schedA.run = some (15 + 1 / 1000000) ∧
    (15 + 1 / 1000000 : ℚ) ≠ 16 :=
  ⟨schedA_outcome_T0_fuel2, schedA_outcome_T1, by norm_num, schedA_run, by norm_num⟩

/-- C1 (amended): the scenario replay yields `T0` `compute_time = 10` and
`T1` `compute_time = 5` as claimed, but a link's transfer time for `N`
bytes is `N / (bandwidth × 10^6 / 8)` — the `bandwidth` field is taken as
Mbps — so with the field set to `8000000` the `T1` `uplink_time` is
`1/1000000` and the makespan is `15 + 1/1000000` (the claimed `1.0` and
`16` would require the field to be `8`). -/
theorem C1_amended_replay :
    (∀ (l : NetworkLink) (N : ℚ), 0 < l.bandwidth →
        l.get_transfer_time N = some (N / (l.bandwidth * 1000000 / 8))) ∧
    schedA.outcome 2 "T0" = .done 0 0 10 ∧
    schedA.outcome 2 "T1" = .done 10 (1 / 1000000) 5 ∧
    schedA.run = some (15 + 1 / 1000000) := by
  refine ⟨?_, schedA_outcome_T0_fuel2, schedA_outcome_T1, schedA_run⟩
  intro l N h
  unfold NetworkLink.get_transfer_time
  rw [if_neg (not_le.mpr h)]

/-- C1 witness: a link whose `bandwidth` field is `8` (Mbps, i.e. `10^6`
bytes per time unit) transfers `1000000` bytes in time `1`. -/
theorem C1_amended_replay_witness :
    (0 : ℚ) < 8 ∧
    (NetworkLink.mk "a" "b" 8 "x").get_transfer_time 1000000 = some 1 := by
  refine ⟨by norm_num, ?_⟩
  rw [C1_amended_replay.1 (NetworkLink.mk "a" "b" 8 "x") 1000000 (by norm_num)]
  norm_num

/-! ## Claim C6 — partition-suffix resolution -/

/-- C6: `"T0_c6"` maps to base id `"T0"`; a bare `"T0"` maps to itself; a
predecessor of `"T1_c6"` whose base predecessor is `"T0"` resolves to the
scheduled id `"T0_c6"` whenever that id is in the schedule; and every
resolved predecessor id is present in the schedule (a mapped id that is
absent is silently dropped). -/
theorem C6_suffix_resolution :
    get_base_task_id "T0_c6" = "T0" ∧
    get_base_task_id "T0" = "T0" ∧
    (∀ (S : DAGScheduler) (td : TaskDefinition),
        S.findDef (get_base_task_id "T1_c6") = some td →
        "T0" ∈ td.predecessors →
        (S.findTask "T0_c6").isSome = true →
        "T0_c6" ∈ S.get_predecessors "T1_c6") ∧
    (∀ (S : DAGScheduler) (tid p : String),
        p ∈ S.get_predecessors tid → (S.findTask p).isSome = true) := by
  refine ⟨by decide, by decide, ?_, ?_⟩
  · intro S td htd hpred hin
    unfold DAGScheduler.get_predecessors
    rw [htd]
    dsimp only
    rw [show cellSuffixOf "T1_c6" = some "c6" by decide]
    apply List.mem_filterMap.mpr
    refine ⟨"T0", hpred, ?_⟩
    have hs : ("T0" ++ "_" ++ "c6" : String) = "T0_c6" := by decide
    rw [hs, if_pos hin]
  · intro S tid p hp
    unfold DAGScheduler.get_predecessors at hp
    cases hfd : S.findDef (get_base_task_id tid) with
    | none => rw [hfd] at hp; cases hp
    | some td =>
      rw [hfd] at hp
      dsimp only at hp
      cases hcs : cellSuffixOf tid with
      | some suffix =>
        rw [hcs] at hp
        obtain ⟨a, _, hfa⟩ := List.mem_filterMap.mp hp
        by_cases hs : (S.findTask (a ++ "_" ++ suffix)).isSome = true
        · rw [if_pos hs] at hfa
          injection hfa with hfa
          subst hfa
          exact hs
        · rw [if_neg hs] at hfa; cases hfa
      | none =>
        rw [hcs] at hp
        obtain ⟨a, _, hfa⟩ := List.mem_filterMap.mp hp
        by_cases hs : (S.findTask a).isSome = true
        · rw [if_pos hs] at hfa
          injection hfa with hfa
          subst hfa
          exact hs
        · rw [if_neg hs] at hfa; cases hfa

/-- C6 witness: under the cell-suffixed schedule, `T1_c6` resolves its
predecessor to `T0_c6`, which is present in the schedule. -/
theorem C6_suffix_resolution_witness :
    "T0_c6" ∈ schedB.get_predecessors "T1_c6" ∧
    (schedB.findTask "T0_c6").isSome = true := by
  have h3 := C6_suffix_resolution.2.2.1 schedB tdT1 (by decide) (by decide) (by decide)
  exact ⟨h3, C6_suffix_resolution.2.2.2 schedB "T1_c6" "T0_c6" h3⟩

/-! ## Claim C9 — predecessors are the inverse of successors after loading -/

theorem find?_eq_of_mem_nodup {edges : List (String × List String)}
    {e : String × List String}
    (hnd : (edges.map Prod.fst).Nodup) (he : e ∈ edges) :
    edges.find? (fun x => x.1 == e.1) = some e := by
  induction edges with
  | nil => cases he
  | cons hd tl ih =>
    rcases List.mem_cons.mp he with rfl | he'
    · rw [List.find?_cons_of_pos _ (by simp)]
    · by_cases hhd : (hd.1 == e.1) = true
      · exfalso
        have h1 : hd.1 = e.1 := by simpa using hhd
        have h2 : e.1 ∈ tl.map Prod.fst := List.mem_map_of_mem Prod.fst he'
        rw [List.map_cons] at hnd
        exact (List.nodup_cons.mp hnd).1 (h1 ▸ h2)
      · rw [@List.find?_cons_of_neg _ (fun x => x.1 == e.1) hd tl hhd]
        exact ih ((List.nodup_cons.mp (List.map_cons Prod.fst hd tl ▸ hnd)).2) he'

theorem mem_dag_predecessors {edges : List (String × List String)} {a tid : String} :
    a ∈ dag_predecessors edges tid ↔ ∃ e ∈ edges, e.1 = a ∧ tid ∈ e.2 := by
  induction edges with
  | nil => simp [dag_predecessors]
  | cons hd tl ih =>
    unfold dag_predecessors at ih ⊢
    rw [List.foldr_cons, List.mem_append]
    constructor
    · rintro (hin | hin)
      · obtain ⟨x, hx, hxa⟩ := List.mem_map.mp hin
        have := List.mem_filter.mp hx
        exact ⟨hd, List.mem_cons_self _ _, hxa, by
          have hx2 : (x == tid) = true := this.2
          have : x = tid := by simpa using hx2
          exact this ▸ this.symm ▸ (List.mem_filter.mp hx).1⟩
      · obtain ⟨e, he, h1, h2⟩ := ih.mp hin
        exact ⟨e, List.mem_cons.mpr (Or.inr he), h1, h2⟩
    · rintro ⟨e, he, h1, h2⟩
      rcases List.mem_cons.mp he with rfl | he'
      · left
        apply List.mem_map.mpr
        exact ⟨tid, List.mem_filter.mpr ⟨h2, by simp⟩, h1⟩
      · right
        exact ih.mpr ⟨e, he', h1, h2⟩

/-- C9: among the task definitions produced by `load_dag` (whose `edges`
input is a Python dict, hence has distinct keys), the predecessor relation
is exactly the inverse of the successor relation: `B` lists `A` as a
predecessor if and only if `A` lists `B` as a successor. -/
theorem C9_pred_succ_inverse (nw : List (String × ℚ)) (edges : List (String × List String))
    (ew : List (String × List (String × ℚ))) (A B : TaskDefinition)
    (hnd : (edges.map Prod.fst).Nodup)
    (hA : A ∈ load_dag nw edges ew) (hB : B ∈ load_dag nw edges ew) :
    A.task_id ∈ B.predecessors ↔ B.task_id ∈ A.successors := by
  obtain ⟨nca, hnca, hAeq⟩ := List.mem_map.mp hA
  obtain ⟨ncb, hncb, hBeq⟩ := List.mem_map.mp hB
  subst hAeq hBeq
  dsimp only
  rw [mem_dag_predecessors]
  constructor
  · rintro ⟨e, he, h1, h2⟩
    have hf : edges.find? (fun x => x.1 == e.1) = some e := find?_eq_of_mem_nodup hnd he
    rw [← h1, hf]
    exact h2
  · intro hmem
    cases hf : edges.find? (fun x => x.1 == nca.1) with
    | none => rw [hf] at hmem; cases hmem
    | some e =>
      rw [hf] at hmem
      have he : e ∈ edges := List.mem_of_find?_eq_some hf
      have hpred : (e.1 == nca.1) = true :=
        @List.find?_some _ (fun x => x.1 == nca.1) e edges hf
      exact ⟨e, he, by simpa using hpred, hmem⟩

/-- C9 witness: loading the two-task DAG `T0 → T1` gives `T1` the
predecessor `T0` exactly matching `T0`'s successor `T1`. -/
theorem C9_pred_succ_inverse_witness :
    tdLoadT0.task_id ∈ tdLoadT1.predecessors ↔ tdLoadT1.task_id ∈ tdLoadT0.successors :=
  C9_pred_succ_inverse nwW edgesW [] tdLoadT0 tdLoadT1 (by decide) (by decide) (by decide)

/-! ## The `_link_map` lookup characterised -/

theorem mem_of_getLast?_eq_some {α : Type} {l : List α} {a : α}
    (h : l.getLast? = some a) : a ∈ l := by
  cases l with
  | nil => cases h
  | cons x xs =>
    have hne : (x :: xs) ≠ [] := List.cons_ne_nil x xs
    rw [List.getLast?_eq_getLast _ hne] at h
    injection h with h
    rw [← h]
    exact List.getLast_mem hne

theorem assocFind_cons (e : (String × String) × NetworkLink)
    (rest : List ((String × String) × NetworkLink)) (k : String × String) :
    assocFind (e :: rest) k = if e.1 = k then some e.2 else assocFind rest k := rfl

theorem assocFind_linkMapStep_pos {l : NetworkLink} {k : String × String}
    (h : setsKeyB l k = true) (acc : List ((String × String) × NetworkLink)) :
    assocFind (linkMapStep acc l) k = some l := by
  unfold linkMapStep
  by_cases hself : (l.source == l.target) = true
  · rw [if_pos hself, assocFind_cons]
    have hk : (l.source, l.target) = k := by
      simp only [setsKeyB, hself, Bool.not_true, Bool.false_and, Bool.or_false,
        Bool.and_eq_true, beq_iff_eq] at h
      exact Prod.ext h.1 h.2
    rw [if_pos hk]
  · rw [if_neg hself, assocFind_cons]
    simp only [setsKeyB, hself, Bool.not_false, Bool.true_and, Bool.or_eq_true,
      Bool.and_eq_true, beq_iff_eq] at h
    rcases h with ⟨h1, h2⟩ | ⟨h1, h2⟩
    · by_cases hrev : ((l.target, l.source) : String × String) = k
      · rw [if_pos hrev]
      · rw [if_neg hrev, assocFind_cons, if_pos (Prod.ext h1 h2)]
    · rw [if_pos (Prod.ext h2 h1)]

theorem assocFind_linkMapStep_neg {l : NetworkLink} {k : String × String}
    (h : setsKeyB l k = false) (acc : List ((String × String) × NetworkLink)) :
    assocFind (linkMapStep acc l) k = assocFind acc k := by
  unfold linkMapStep
  by_cases hself : (l.source == l.target) = true
  · rw [if_pos hself, assocFind_cons, if_neg ?hne]
    case hne =>
      intro hk
      rw [setsKeyB, ← hk] at h
      simp at h
  · rw [if_neg hself, assocFind_cons, if_neg ?hne1, assocFind_cons, if_neg ?hne2]
    case hne1 =>
      intro hk
      rw [setsKeyB, ← hk] at h
      simp_all
    case hne2 =>
      intro hk
      rw [setsKeyB, ← hk] at h
      simp_all

theorem assocFind_foldl (k : String × String) :
    ∀ (ls : List NetworkLink) (acc : List ((String × String) × NetworkLink)),
      assocFind (ls.foldl linkMapStep acc) k =
        match (ls.filter (fun l => setsKeyB l k)).getLast? with
        | some l => some l
        | none => assocFind acc k := by
  intro ls
  induction ls with
  | nil => intro acc; simp
  | cons l ls ih =>
    intro acc
    rw [List.foldl_cons, ih, List.filter_cons]
    by_cases hl : setsKeyB l k = true
    · rw [if_pos hl]
      cases hlast : (ls.filter (fun l => setsKeyB l k)).getLast? with
      | some l' =>
        rw [show ((l :: ls.filter (fun l => setsKeyB l k)).getLast?) = some l' by
          cases hfe : ls.filter (fun l => setsKeyB l k) with
          | nil => rw [hfe] at hlast; cases hlast
          | cons y ys => rw [hfe] at hlast; rw [List.getLast?_cons_cons]; exact hlast]
      | none =>
        have hfe : ls.filter (fun l => setsKeyB l k) = [] := by
          cases hfe : ls.filter (fun l => setsKeyB l k) with
          | nil => rfl
          | cons y ys =>
            rw [hfe] at hlast
            rw [List.getLast?_eq_getLast _ (List.cons_ne_nil y ys)] at hlast
            cases hlast
        rw [hfe]
        simp only [List.getLast?_singleton]
        exact assocFind_linkMapStep_pos hl acc
    · rw [if_neg hl]
      cases hlast : (ls.filter (fun l => setsKeyB l k)).getLast? with
      | some l' => rfl
      | none => exact assocFind_linkMapStep_neg (Bool.eq_false_iff.mpr hl) acc

/-- `get_link` returns the last link whose `_build_graph` insertion wrote
the queried directed pair. -/
theorem get_link_spec (t : DAGTopology) (a b : String) :
    t.get_link a b = (t.links.filter (fun l => setsKeyB l (a, b))).getLast? := by
  unfold DAGTopology.get_link linkMapEntries
  rw [assocFind_foldl]
  cases (t.links.filter (fun l => setsKeyB l (a, b))).getLast? with
  | some l => rfl
  | none => rfl

theorem setsKeyB_diag {l : NetworkLink} {n : String} :
    setsKeyB l (n, n) = true ↔ l.source = n ∧ l.target = n := by
  unfold setsKeyB
  simp only [Bool.or_eq_true, Bool.and_eq_true, beq_iff_eq, Bool.not_eq_true',
    beq_eq_false_iff_ne, ne_eq]
  constructor
  · rintro (⟨h1, h2⟩ | ⟨⟨hne, h1⟩, h2⟩)
    · exact ⟨h1, h2⟩
    · exact absurd (h1.trans h2.symm) hne
  · exact fun h => Or.inl ⟨h.1, h.2⟩

theorem get_link_some_spec {t : DAGTopology} {a b : String} {l : NetworkLink}
    (h : t.get_link a b = some l) :
    l ∈ t.links ∧ setsKeyB l (a, b) = true := by
  rw [get_link_spec] at h
  have hm := mem_of_getLast?_eq_some h
  have := List.mem_filter.mp hm
  exact ⟨this.1, this.2⟩

theorem get_link_none_spec {t : DAGTopology} {a b : String}
    (h : t.get_link a b = none) : ∀ l ∈ t.links, setsKeyB l (a, b) = false := by
  rw [get_link_spec] at h
  intro l hl
  by_contra hc
  have hmem : l ∈ t.links.filter (fun l => setsKeyB l (a, b)) :=
    List.mem_filter.mpr ⟨hl, by simpa using hc⟩
  have hne : t.links.filter (fun l => setsKeyB l (a, b)) ≠ [] := by
    intro he; rw [he] at hmem; cases hmem
  have := List.getLast?_isSome.mpr hne
  rw [h] at this
  cases this

theorem get_link_isSome_of {t : DAGTopology} {a b : String} {l : NetworkLink}
    (hl : l ∈ t.links) (hk : setsKeyB l (a, b) = true) :
    (t.get_link a b).isSome = true := by
  rw [get_link_spec]
  apply List.getLast?_isSome.mpr
  intro he
  have hmem : l ∈ t.links.filter (fun l => setsKeyB l (a, b)) :=
    List.mem_filter.mpr ⟨hl, hk⟩
  rw [he] at hmem
  cases hmem

/-! ## Claim C7 — self-loop transfer time and graph construction -/

/-- C7: for any node `n` and byte count `b ≥ 0`, `get_transfer_time n n b`
is the self-loop link's own transfer time when a self-loop exists for `n`
(the stored one, a link of the input with `source = target = n`) and
`some 0` otherwise; a pair of equal endpoints is never a graph edge, while
every self-loop link is present in the directed-pair link lookup. -/
theorem C7_selfloop (t : DAGTopology) (n : String) (b : ℚ) (_hb : 0 ≤ b) :
    ((∃ l, t.get_link n n = some l ∧ l ∈ t.links ∧ l.source = n ∧ l.target = n ∧
        t.get_transfer_time n n b = l.get_transfer_time b) ∨
      ((∀ l ∈ t.links, ¬ (l.source = n ∧ l.target = n)) ∧
        t.get_transfer_time n n b = some 0)) ∧
    (∀ a : String, t.graphEdge a a = none) ∧
    (∀ l ∈ t.links, l.source = l.target → (t.get_link l.source l.target).isSome = true) := by
  refine ⟨?_, ?_, ?_⟩
  · cases hl : t.get_link n n with
    | some l =>
      left
      obtain ⟨hmem, hk⟩ := get_link_some_spec hl
      obtain ⟨h1, h2⟩ := setsKeyB_diag.mp hk
      refine ⟨l, rfl, hmem, h1, h2, ?_⟩
      unfold DAGTopology.get_transfer_time
      rw [if_pos (by simp), hl]
    | none =>
      right
      constructor
      · intro l hlm hc
        have h2 := setsKeyB_diag.mpr hc
        rw [get_link_none_spec hl l hlm] at h2
        cases h2
      · unfold DAGTopology.get_transfer_time
        rw [if_pos (by simp), hl]
  · intro a
    unfold DAGTopology.graphEdge
    rw [show (t.graphEdgeLinks.filter
        (fun l => (l.source == a && l.target == a) ||
          (l.source == a && l.target == a))) = [] from ?_]
    · rfl
    · apply List.filter_eq_nil_iff.mpr
      intro l hl
      unfold DAGTopology.graphEdgeLinks at hl
      have := (List.mem_filter.mp hl).2
      simp only [Bool.not_eq_true', beq_eq_false_iff_ne, ne_eq] at this
      simp only [Bool.or_eq_true, Bool.and_eq_true, beq_iff_eq]
      rintro (⟨h1, h2⟩ | ⟨h1, h2⟩) <;> exact this (h1.trans h2.symm)
  · intro l hl hself
    apply get_link_isSome_of hl
    rw [hself]
    exact setsKeyB_diag.mpr ⟨hself, rfl⟩

/-! ## Path enumeration: soundness, completeness, minimal choice

These lemmas characterise the model of `nx.dijkstra_path`: every returned
vertex sequence is a simple path of the graph, every simple path is
considered, and the chosen one has minimal inverse-bandwidth weight. -/

theorem mem_foldr_append {α β : Type} (f : α → List β) :
    ∀ (l : List α) (y : β), (y ∈ l.foldr (fun a acc => f a ++ acc) []) ↔ ∃ a ∈ l, y ∈ f a := by
  intro l
  induction l with
  | nil => simp
  | cons x xs ih =>
    intro y
    rw [List.foldr_cons, List.mem_append]
    constructor
    · rintro (h | h)
      · exact ⟨x, List.mem_cons_self _ _, h⟩
      · obtain ⟨a, ha, hy⟩ := (ih y).mp h
        exact ⟨a, List.mem_cons.mpr (Or.inr ha), hy⟩
    · rintro ⟨a, ha, hy⟩
      rcases List.mem_cons.mp ha with rfl | ha
      · exact Or.inl hy
      · exact Or.inr ((ih y).mpr ⟨a, ha, hy⟩)

theorem graphEdge_mem {t : DAGTopology} {a b : String} {l : NetworkLink}
    (h : t.graphEdge a b = some l) :
    l ∈ t.links ∧ l.source ≠ l.target ∧
      ((l.source = a ∧ l.target = b) ∨ (l.source = b ∧ l.target = a)) := by
  unfold DAGTopology.graphEdge at h
  have hm := mem_of_getLast?_eq_some h
  obtain ⟨hm1, hm2⟩ := List.mem_filter.mp hm
  unfold DAGTopology.graphEdgeLinks at hm1
  obtain ⟨hl, hne⟩ := List.mem_filter.mp hm1
  refine ⟨hl, by simpa using hne, ?_⟩
  simpa using hm2

theorem graphEdge_ne {t : DAGTopology} {a b : String} {l : NetworkLink}
    (h : t.graphEdge a b = some l) : a ≠ b := by
  obtain ⟨_, hne, hpair⟩ := graphEdge_mem h
  rintro rfl
  rcases hpair with ⟨h1, h2⟩ | ⟨h1, h2⟩ <;> exact hne (h1.trans h2.symm)

theorem mem_graphNodes_endpoints {t : DAGTopology} {l : NetworkLink}
    (hl : l ∈ t.graphEdgeLinks) : l.source ∈ t.graphNodes ∧ l.target ∈ t.graphNodes := by
  unfold DAGTopology.graphNodes
  have key : ∀ (ls : List NetworkLink), l ∈ ls →
      l.source ∈ ls.foldr (fun l acc => l.source :: l.target :: acc) [] ∧
      l.target ∈ ls.foldr (fun l acc => l.source :: l.target :: acc) [] := by
    intro ls
    induction ls with
    | nil => intro h; cases h
    | cons x xs ih =>
      intro h
      rw [List.foldr_cons]
      rcases List.mem_cons.mp h with rfl | h
      · exact ⟨List.mem_cons_self _ _, List.mem_cons.mpr (Or.inr (List.mem_cons_self _ _))⟩
      · obtain ⟨h1, h2⟩ := ih h
        exact ⟨List.mem_cons.mpr (Or.inr (List.mem_cons.mpr (Or.inr h1))),
          List.mem_cons.mpr (Or.inr (List.mem_cons.mpr (Or.inr h2)))⟩
  obtain ⟨h1, h2⟩ := key t.graphEdgeLinks hl
  exact ⟨List.mem_append.mpr (Or.inr h1), List.mem_append.mpr (Or.inr h2)⟩

theorem mem_graphNodes_of_graphEdge {t : DAGTopology} {a b : String} {l : NetworkLink}
    (h : t.graphEdge a b = some l) : a ∈ t.graphNodes ∧ b ∈ t.graphNodes := by
  unfold DAGTopology.graphEdge at h
  have hm := mem_of_getLast?_eq_some h
  obtain ⟨hm1, hm2⟩ := List.mem_filter.mp hm
  obtain ⟨h1, h2⟩ := mem_graphNodes_endpoints hm1
  simp only [Bool.or_eq_true, Bool.and_eq_true, beq_iff_eq] at hm2
  rcases hm2 with ⟨ha, hb⟩ | ⟨ha, hb⟩
  · exact ⟨ha ▸ h1, hb ▸ h2⟩
  · exact ⟨hb ▸ h2, ha ▸ h1⟩

theorem pathsFrom_sound (t : DAGTopology) :
    ∀ (fuel : Nat) (visited : List String) (cur tgt : String) (p : List String),
      p ∈ t.pathsFrom fuel visited cur tgt → cur ∉ visited →
      p.head? = some cur ∧ p.getLast? = some tgt ∧ p.Nodup ∧
        p.Chain' (fun a b => (t.graphEdge a b).isSome = true) ∧
        ∀ x ∈ p, x ∉ visited := by
  intro fuel
  induction fuel with
  | zero =>
    intro visited cur tgt p hp hcv
    unfold DAGTopology.pathsFrom at hp
    by_cases h : (cur == tgt) = true
    · rw [if_pos h] at hp
      have hpe : p = [cur] := by simpa using hp
      subst hpe
      have : cur = tgt := by simpa using h
      subst this
      refine ⟨rfl, rfl, by simp, by simp, ?_⟩
      intro x hx
      rcases List.mem_singleton.mp hx with rfl
      exact hcv
    · rw [if_neg h] at hp
      cases hp
  | succ fuel ih =>
    intro visited cur tgt p hp hcv
    unfold DAGTopology.pathsFrom at hp
    by_cases h : (cur == tgt) = true
    · rw [if_pos h] at hp
      have hpe : p = [cur] := by simpa using hp
      subst hpe
      have : cur = tgt := by simpa using h
      subst this
      refine ⟨rfl, rfl, by simp, by simp, ?_⟩
      intro x hx
      rcases List.mem_singleton.mp hx with rfl
      exact hcv
    · rw [if_neg h] at hp
      obtain ⟨n, hn, hpmem⟩ := (mem_foldr_append _ _ _).mp hp
      obtain ⟨hnn, hncond⟩ := List.mem_filter.mp hn
      have hadj : (t.graphEdge cur n).isSome = true := by
        simp only [Bool.and_eq_true] at hncond
        exact hncond.1
      have hnvis : n ∉ visited := by
        simp only [Bool.and_eq_true, Bool.not_eq_true'] at hncond
        intro hmem
        have := hncond.2
        rw [List.contains_eq_any_beq] at this
        have : visited.any (fun x => n == x) = true :=
          List.any_eq_true.mpr ⟨n, hmem, by simp⟩
        simp_all
      have hnne : cur ≠ n := by
        cases hge : t.graphEdge cur n with
        | none => rw [hge] at hadj; cases hadj
        | some l => exact graphEdge_ne hge
      obtain ⟨p', hp', hpeq⟩ := List.mem_map.mp hpmem
      subst hpeq
      have hnin : n ∉ (cur :: visited) := by
        intro hmem
        rcases List.mem_cons.mp hmem with h' | h'
        · exact hnne h'.symm
        · exact hnvis h'
      obtain ⟨hh, hlast, hnd, hch, hvis⟩ := ih (cur :: visited) n tgt p' hp' hnin
      have hpne : p' ≠ [] := by
        intro he; rw [he] at hh; cases hh
      refine ⟨rfl, ?_, ?_, ?_, ?_⟩
      · cases p' with
        | nil => exact absurd rfl hpne
        | cons y ys => rw [List.getLast?_cons_cons]; exact hlast
      · rw [List.nodup_cons]
        refine ⟨?_, hnd⟩
        intro hmem
        exact (hvis cur hmem) (List.mem_cons_self _ _)
      · cases p' with
        | nil => exact absurd rfl hpne
        | cons y ys =>
          have hy : y = n := by injection hh
          subst hy
          exact List.chain'_cons.mpr ⟨hadj, hch⟩
      · intro x hx
        rcases List.mem_cons.mp hx with rfl | hx
        · exact hcv
        · intro hmem
          exact (hvis x hx) (List.mem_cons.mpr (Or.inr hmem))

theorem pathsFrom_complete (t : DAGTopology) :
    ∀ (q : List String) (fuel : Nat) (visited : List String) (cur tgt : String),
      q.head? = some cur → q.getLast? = some tgt → q.Nodup →
      q.Chain' (fun a b => (t.graphEdge a b).isSome = true) →
      (∀ x ∈ q, x ∉ visited) → q.length ≤ fuel + 1 →
      q ∈ t.pathsFrom fuel visited cur tgt := by
  intro q
  induction q with
  | nil => intro fuel visited cur tgt hh _ _ _ _ _; cases hh
  | cons a q' ih =>
    intro fuel visited cur tgt hh hlast hnd hch hvis hlen
    have ha : a = cur := by injection hh
    subst ha
    cases q' with
    | nil =>
      have htgt : a = tgt := by simpa using hlast
      cases fuel with
      | zero =>
        unfold DAGTopology.pathsFrom
        rw [if_pos (by simp [htgt])]
        simp [htgt]
      | succ f =>
        unfold DAGTopology.pathsFrom
        rw [if_pos (by simp [htgt])]
        simp [htgt]
    | cons n rest =>
      have hcn : a ∉ n :: rest := (List.nodup_cons.mp hnd).1
      have hne : a ≠ tgt := by
        have htm : tgt ∈ n :: rest := by
          rw [List.getLast?_cons_cons] at hlast
          exact mem_of_getLast?_eq_some hlast
        intro he
        subst he
        exact hcn htm
      cases fuel with
      | zero => simp at hlen
      | succ fuel =>
        unfold DAGTopology.pathsFrom
        rw [if_neg (by simp [hne])]
        apply (mem_foldr_append _ _ _).mpr
        have hadj : (t.graphEdge a n).isSome = true := (List.chain'_cons.mp hch).1
        have hnv : n ∉ visited := hvis n (List.mem_cons.mpr (Or.inr (List.mem_cons_self _ _)))
        refine ⟨n, ?_, ?_⟩
        · apply List.mem_filter.mpr
          constructor
          · cases hge : t.graphEdge a n with
            | none => rw [hge] at hadj; cases hadj
            | some l => exact (mem_graphNodes_of_graphEdge hge).2
          · rw [Bool.and_eq_true]
            refine ⟨hadj, ?_⟩
            rw [Bool.not_eq_true']
            cases hcontains : visited.contains n with
            | false => rfl
            | true => exact absurd (List.elem_iff.mp hcontains) hnv
        · apply List.mem_map.mpr
          refine ⟨n :: rest, ?_, rfl⟩
          apply ih fuel (a :: visited) n tgt rfl
          · rw [List.getLast?_cons_cons] at hlast; exact hlast
          · exact (List.nodup_cons.mp hnd).2
          · exact (List.chain'_cons.mp hch).2
          · intro x hx
            intro hmem
            rcases List.mem_cons.mp hmem with rfl | hmem
            · exact hcn hx
            · exact hvis x (List.mem_cons.mpr (Or.inr hx)) hmem
          · have : (a :: n :: rest).length ≤ fuel + 2 := hlen
            simp only [List.length_cons] at this ⊢
            omega

theorem chooseMinPath_mem {w : List String → EWeight} :
    ∀ {ps : List (List String)} {p : List String},
      chooseMinPath w ps = some p → p ∈ ps := by
  intro ps
  induction ps with
  | nil => intro p h; cases h
  | cons q qs ih =>
    intro p h
    unfold chooseMinPath at h
    cases hrec : chooseMinPath w qs with
    | none =>
      rw [hrec] at h
      injection h with h
      exact h ▸ List.mem_cons_self _ _
    | some q' =>
      rw [hrec] at h
      dsimp only at h
      by_cases hlt : EWeight.ltB (w q') (w q) = true
      · rw [if_pos hlt] at h
        injection h with h
        exact List.mem_cons.mpr (Or.inr (h ▸ ih hrec))
      · rw [if_neg hlt] at h
        injection h with h
        exact h ▸ List.mem_cons_self _ _

theorem chooseMinPath_none {w : List String → EWeight} :
    ∀ {ps : List (List String)}, chooseMinPath w ps = none → ps = [] := by
  intro ps
  cases ps with
  | nil => intro _; rfl
  | cons q qs =>
    intro h
    unfold chooseMinPath at h
    cases hrec : chooseMinPath w qs <;> rw [hrec] at h <;> dsimp only at h
    · cases h
    · split at h <;> cases h

theorem chooseMinPath_min {w : List String → EWeight} :
    ∀ {ps : List (List String)} {p : List String},
      chooseMinPath w ps = some p → ∀ q ∈ ps, (w p).leB (w q) = true := by
  intro ps
  induction ps with
  | nil => intro p h; cases h
  | cons q qs ih =>
    intro p h r hr
    unfold chooseMinPath at h
    cases hrec : chooseMinPath w qs with
    | none =>
      rw [hrec] at h
      injection h with h
      subst h
      have hqs : qs = [] := chooseMinPath_none hrec
      subst hqs
      rcases List.mem_singleton.mp hr with rfl
      exact EWeight.leB_refl _
    | some q' =>
      rw [hrec] at h
      dsimp only at h
      by_cases hlt : EWeight.ltB (w q') (w q) = true
      · rw [if_pos hlt] at h
        injection h with h
        subst h
        rcases List.mem_cons.mp hr with rfl | hr
        · exact EWeight.leB_of_ltB hlt
        · exact ih hrec r hr
      · rw [if_neg hlt] at h
        injection h with h
        subst h
        rcases List.mem_cons.mp hr with rfl | hr
        · exact EWeight.leB_refl _
        · exact EWeight.leB_trans (EWeight.leB_of_not_ltB (Bool.eq_false_iff.mpr hlt))
            (ih hrec r hr)


theorem chain_subset_graphNodes (t : DAGTopology) :
    ∀ (q : List String),
      q.Chain' (fun a b => (t.graphEdge a b).isSome = true) → 2 ≤ q.length →
      ∀ x ∈ q, x ∈ t.graphNodes
  | [] => fun _ h => absurd h (by simp)
  | [_] => fun _ h => absurd h (by simp)
  | a :: b :: rest => fun hch _ x hx => by
    have hadj : (t.graphEdge a b).isSome = true := (List.chain'_cons.mp hch).1
    obtain ⟨l, hl⟩ : ∃ l, t.graphEdge a b = some l := by
      cases hge : t.graphEdge a b with
      | none => rw [hge] at hadj; cases hadj
      | some l => exact ⟨l, rfl⟩
    obtain ⟨hma, hmb⟩ := mem_graphNodes_of_graphEdge hl
    rcases List.mem_cons.mp hx with rfl | hx
    · exact hma
    · cases rest with
      | nil =>
        rcases List.mem_singleton.mp hx with rfl
        exact hmb
      | cons c cs =>
        exact chain_subset_graphNodes t (b :: c :: cs) (List.chain'_cons.mp hch).2
          (by simp) x hx

theorem simple_path_two_le_length {q : List String} {s tgt : String}
    (hh : q.head? = some s) (hl : q.getLast? = some tgt) (hne : s ≠ tgt) :
    2 ≤ q.length := by
  cases q with
  | nil => cases hh
  | cons a q' =>
    cases q' with
    | nil =>
      injection hh with hh
      have ht : a = tgt := by simpa using hl
      exact absurd (hh ▸ ht) hne
    | cons b rest => simp

theorem isSimplePath_length_le {t : DAGTopology} {q : List String} {s tgt : String}
    (h : IsSimplePath t q s tgt) (hne : s ≠ tgt) :
    q.length ≤ t.graphNodes.length := by
  obtain ⟨hh, hl, hnd, hch⟩ := h
  have h2 : 2 ≤ q.length := simple_path_two_le_length hh hl hne
  have hsub : q ⊆ t.graphNodes := fun x hx => chain_subset_graphNodes t q hch h2 x hx
  exact (hnd.subperm hsub).length_le

/-- C8: `get_path(source, target)` returns the trivial single-node path
when the endpoints coincide; otherwise any returned path is a simple path
of the graph of minimum weight under the inverse-bandwidth edge weights,
and the call fails (the `ValueError` wrapping `NodeNotFound` / `NoPath`)
exactly when no connecting simple path exists — in particular whenever
either endpoint is absent from the graph's node set, since such a node has
no incident edge and hence no path. -/
theorem C8_get_path (t : DAGTopology) (s tgt : String) :
    (t.get_path s s = some [s]) ∧
    (s ≠ tgt → ∀ p, t.get_path s tgt = some p →
        IsSimplePath t p s tgt ∧
        ∀ q, IsSimplePath t q s tgt →
          EWeight.leB (t.pathWeight p) (t.pathWeight q) = true) ∧
    (s ≠ tgt → (t.get_path s tgt = none ↔ ¬ ∃ q, IsSimplePath t q s tgt)) ∧
    (s ≠ tgt → (s ∉ t.graphNodes ∨ tgt ∉ t.graphNodes) → t.get_path s tgt = none) := by
  refine ⟨?_, ?_, ?_, ?_⟩
  · unfold DAGTopology.get_path
    rw [if_pos (by simp)]
  · intro hne p hp
    unfold DAGTopology.get_path at hp
    rw [if_neg (by simpa using hne)] at hp
    have hmem := chooseMinPath_mem hp
    obtain ⟨hh, hl, hnd, hch, _⟩ := pathsFrom_sound t _ [] s tgt p hmem (by simp)
    refine ⟨⟨hh, hl, hnd, hch⟩, ?_⟩
    intro q hq
    apply chooseMinPath_min hp
    obtain ⟨qh, ql, qnd, qch⟩ := hq
    apply pathsFrom_complete t q _ [] s tgt qh ql qnd qch (by simp)
    have := isSimplePath_length_le ⟨qh, ql, qnd, qch⟩ hne
    omega
  · intro hne
    constructor
    · rintro hnone ⟨q, hq⟩
      unfold DAGTopology.get_path at hnone
      rw [if_neg (by simpa using hne)] at hnone
      have hempty := chooseMinPath_none hnone
      obtain ⟨qh, ql, qnd, qch⟩ := hq
      have hlen : q.length ≤ t.graphNodes.length + 1 := by
        have := isSimplePath_length_le ⟨qh, ql, qnd, qch⟩ hne
        omega
      have hq' := pathsFrom_complete t q t.graphNodes.length [] s tgt qh ql qnd qch
        (by simp) hlen
      rw [hempty] at hq'
      cases hq'
    · intro hno
      cases hp : t.get_path s tgt with
      | none => rfl
      | some p =>
        exfalso
        unfold DAGTopology.get_path at hp
        rw [if_neg (by simpa using hne)] at hp
        have hmem := chooseMinPath_mem hp
        obtain ⟨hh, hl, hnd, hch, _⟩ := pathsFrom_sound t _ [] s tgt p hmem (by simp)
        exact hno ⟨p, hh, hl, hnd, hch⟩
  · intro hne habs
    cases hp : t.get_path s tgt with
    | none => rfl
    | some p =>
      exfalso
      unfold DAGTopology.get_path at hp
      rw [if_neg (by simpa using hne)] at hp
      have hmem := chooseMinPath_mem hp
      obtain ⟨hh, hl, hnd, hch, _⟩ := pathsFrom_sound t _ [] s tgt p hmem (by simp)
      have h2 : 2 ≤ p.length := simple_path_two_le_length hh hl hne
      have hsmem : s ∈ p := by
        cases p with
        | nil => cases hh
        | cons a q =>
          injection hh with hh
          exact List.mem_cons.mpr (Or.inl hh.symm)
      have htmem : tgt ∈ p := mem_of_getLast?_eq_some hl
      rcases habs with h | h
      · exact h (chain_subset_graphNodes t p hch h2 s hsmem)
      · exact h (chain_subset_graphNodes t p hch h2 tgt htmem)

theorem chain'_zip_pairs {R : String → String → Prop} :
    ∀ {q : List String}, q.Chain' R → ∀ ab ∈ q.zip q.tail, R ab.1 ab.2
  | [] => fun _ ab hab => absurd hab (by simp)
  | [_] => fun _ ab hab => absurd hab (by simp)
  | a :: b :: rest => by
    intro hch ab hab
    rw [show ((a :: b :: rest).zip (a :: b :: rest).tail)
        = (a, b) :: ((b :: rest).zip rest) from rfl] at hab
    rcases List.mem_cons.mp hab with rfl | hab
    · exact (List.chain'_cons.mp hch).1
    · exact chain'_zip_pairs (List.chain'_cons.mp hch).2 ab hab

theorem optMap_isSome {α β : Type} {f : α → Option β} :
    ∀ {l : List α}, (∀ a ∈ l, (f a).isSome = true) →
      ∃ ys, optMap f l = some ys ∧ ys.length = l.length := by
  intro l
  induction l with
  | nil => intro _; exact ⟨[], rfl, rfl⟩
  | cons x xs ih =>
    intro h
    obtain ⟨ys, hys, hlen⟩ := ih (fun a ha => h a (List.mem_cons.mpr (Or.inr ha)))
    have hx := h x (List.mem_cons_self _ _)
    cases hfx : f x with
    | none => rw [hfx] at hx; cases hx
    | some y =>
      refine ⟨y :: ys, ?_, by simp [hlen]⟩
      unfold optMap
      rw [hfx, hys]

theorem consecLinks_eq_optMap (t : DAGTopology) :
    ∀ (p : List String) (ls : List NetworkLink),
      optMap (fun ab => t.get_link ab.1 ab.2) (p.zip p.tail) = some ls →
      t.consecLinks p = ls
  | [], ls => by intro h; injection h
  | [x], ls => by intro h; injection h
  | a :: b :: rest, ls => by
    intro h
    rw [show ((a :: b :: rest).zip (a :: b :: rest).tail)
        = (a, b) :: ((b :: rest).zip rest) from rfl] at h
    unfold optMap at h
    dsimp only at h
    cases hgl : t.get_link a b with
    | none => rw [hgl] at h; cases h
    | some l =>
      rw [hgl] at h
      cases hrest : optMap (fun ab => t.get_link ab.1 ab.2) ((b :: rest).zip rest) with
      | none => rw [hrest] at h; cases h
      | some ls' =>
        rw [hrest] at h
        injection h with h
        rw [← h]
        unfold DAGTopology.consecLinks
        rw [hgl]
        rw [consecLinks_eq_optMap t (b :: rest) ls' hrest]

theorem get_link_isSome_of_graphEdge {t : DAGTopology} {a b : String} {l : NetworkLink}
    (h : t.graphEdge a b = some l) : (t.get_link a b).isSome = true := by
  obtain ⟨hmem, hne, hpair⟩ := graphEdge_mem h
  apply get_link_isSome_of hmem
  unfold setsKeyB
  simp only [Bool.or_eq_true, Bool.and_eq_true, beq_iff_eq, Bool.not_eq_true',
    beq_eq_false_iff_ne, ne_eq]
  rcases hpair with ⟨h1, h2⟩ | ⟨h1, h2⟩
  · exact Or.inl ⟨h1, h2⟩
  · exact Or.inr ⟨⟨hne, h1⟩, h2⟩

/-- C3: for distinct nodes joined by a path, `get_transfer_time` is the
sum, over every consecutive edge of the path returned by `get_path`, of
that edge's own link transfer time for the same byte count — the additive
per-hop model: every consecutive pair of the returned path has a link in
the lookup (none is skipped, witnessed by the length equation), and the
result is exactly the sum of those links' transfer times. -/
theorem C3_transfer_sum (t : DAGTopology) (s tgt : String) (b : ℚ) (hne : s ≠ tgt)
    (p : List String) (hp : t.get_path s tgt = some p) :
    ∃ ls : List NetworkLink,
      optMap (fun ab => t.get_link ab.1 ab.2) (p.zip p.tail) = some ls ∧
      ls.length = p.length - 1 ∧
      t.get_transfer_time s tgt b =
        (optMap (fun l => l.get_transfer_time b) ls).map List.sum := by
  have hp' := hp
  unfold DAGTopology.get_path at hp'
  rw [if_neg (by simpa using hne)] at hp'
  have hmem := chooseMinPath_mem hp'
  obtain ⟨hh, hl, hnd, hch, _⟩ := pathsFrom_sound t _ [] s tgt p hmem (by simp)
  have hpairs : ∀ ab ∈ p.zip p.tail, ((fun ab => t.get_link ab.1 ab.2) ab).isSome = true := by
    intro ab hab
    have hadj := chain'_zip_pairs hch ab hab
    cases hge : t.graphEdge ab.1 ab.2 with
    | none => rw [hge] at hadj; cases hadj
    | some l => exact get_link_isSome_of_graphEdge hge
  obtain ⟨ls, hls, hlen⟩ := optMap_isSome hpairs
  have hziplen : (p.zip p.tail).length = p.length - 1 := by
    cases p with
    | nil => simp
    | cons x xs => simp [List.length_zip]
  have h2 : 2 ≤ p.length := simple_path_two_le_length hh hl hne
  have hlsne : ls ≠ [] := by
    intro he
    have h0 : ls.length = 0 := by rw [he]; rfl
    rw [hlen, hziplen] at h0
    omega
  have hpl : t.get_path_links s tgt = some ls := by
    unfold DAGTopology.get_path_links
    rw [if_neg (by simpa using hne), hp]
    simp only [Option.map_some']
    rw [consecLinks_eq_optMap t p ls hls]
  refine ⟨ls, hls, hlen.trans hziplen, ?_⟩
  unfold DAGTopology.get_transfer_time
  rw [if_neg (by simpa using hne), hpl]
  dsimp only
  rw [if_neg hlsne]

/-- C7 witness: in the topology with a self-loop on `n0`, the conclusion
instantiated at `n0` with byte count `8`. -/
theorem C7_selfloop_witness :
    ((∃ l, topoD.get_link "n0" "n0" = some l ∧ l ∈ topoD.links ∧ l.source = "n0" ∧
        l.target = "n0" ∧ topoD.get_transfer_time "n0" "n0" 8 = l.get_transfer_time 8) ∨
      ((∀ l ∈ topoD.links, ¬ (l.source = "n0" ∧ l.target = "n0")) ∧
        topoD.get_transfer_time "n0" "n0" 8 = some 0)) ∧
    (∀ a : String, topoD.graphEdge a a = none) ∧
    (∀ l ∈ topoD.links, l.source = l.target →
        (topoD.get_link l.source l.target).isSome = true) :=
  C7_selfloop topoD "n0" 8 (by norm_num)


/-- C8 witness: in the two-node scenario topology, `get_path` returns the
trivial path on equal endpoints, and `["n0", "n1"]` is a minimum-weight
simple path from `n0` to `n1`. -/
theorem C8_get_path_witness :
    topoA.get_path "n0" "n0" = some ["n0"] ∧
    IsSimplePath topoA ["n0", "n1"] "n0" "n1" ∧
    ∀ q, IsSimplePath topoA q "n0" "n1" →
      EWeight.leB (topoA.pathWeight ["n0", "n1"]) (topoA.pathWeight q) = true := by
  have h := (C8_get_path topoA "n0" "n1").2.1 (by decide) ["n0", "n1"] topoA_get_path
  exact ⟨(C8_get_path topoA "n0" "n1").1, h.1, h.2⟩

/-- C3 witness: the transfer time from `n0` to `n1` for 1,000,000 bytes is
the sum of the per-hop transfer times along `["n0", "n1"]`. -/
theorem C3_transfer_sum_witness :
    ∃ ls : List NetworkLink,
      optMap (fun ab => topoA.get_link ab.1 ab.2)
        ((["n0", "n1"] : List String).zip (["n0", "n1"] : List String).tail) = some ls ∧
      ls.length = (["n0", "n1"] : List String).length - 1 ∧
      topoA.get_transfer_time "n0" "n1" 1000000 =
        (optMap (fun l => l.get_transfer_time 1000000) ls).map List.sum :=
  C3_transfer_sum topoA "n0" "n1" 1000000 (by decide) ["n0", "n1"] topoA_get_path

end MintEdge
